import Mathlib

/-!
Verification of the CodeSmith guardrails pipeline and resilient AI dispatch
client, as a shallow embedding of the TypeScript sources.

Embedding conventions:
* JS strings are Lean `String` (lists of `Char`); `string.length` is the
  Lean `String.length` (the payloads considered here are within the BMP, where
  the UTF-16 length used by JS agrees with the scalar count).
* JS numbers used as money/prices are modelled as `ℚ` (the float operations
  involved — dividing integer token counts by 1000, halving an integer
  context window, comparing prices — are exact in IEEE double for the
  magnitudes in the model table, so `ℚ` computes the same answers).
* Timestamps (`Date.now()`) are milliseconds as `ℕ`.  The float comparisons
  `(now - last) / 60000 >= 1` and `(now - last) / 86400000 >= 1` are modelled
  as `60000 ≤ now - last` and `86400000 ≤ now - last` on `ℕ` (truncated
  subtraction gives 0 when `now < last`, matching a negative float quotient
  being `< 1`).
* A thrown JS exception is an `Except.error` carrying the message.
* The JS regular expressions of the content-safety rule are embedded with a
  small backtracking engine below that covers exactly the constructs those
  patterns use: character classes, concatenation, leftmost alternation,
  greedy `?`, greedy unbounded repetition of a class, and the `\b` word
  boundary.  The engine reproduces the observable JS semantics that matter
  here: leftmost match, greedy-with-backtracking, and — crucially — the
  `lastIndex` statefulness of `RegExp.prototype.test` on a `g`-flagged regex
  (a successful test moves `lastIndex` to the end of the match, a failed test
  resets it to 0), while `String.prototype.replace` with a `g` regex always
  scans from position 0 and replaces every match.  None of the embedded
  patterns can match the empty string, so the empty-match advancement rule of
  JS `replace` is not modelled.
-/

namespace CS

/-! ## A small regex engine (the fragment used by the guardrails sources) -/

/-- Regex abstract syntax.  `cls` is a single character from a class,
`starCls` is greedy `[..]*` over a class, `wordB` is the zero-width
word-boundary assertion. -/
inductive RE
  | emp
  | wordB
  | cls (p : Char → Bool)
  | seq (a b : RE)
  | alt (a b : RE)
  | opt (a : RE)
  | starCls (p : Char → Bool)

/-- JS word character, as used by the word-boundary assertion. -/
def isWordChar (c : Char) : Bool := c.isAlphanum || c == '_'

def isWordOpt : Option Char → Bool
  | none => false
  | some c => isWordChar c

/-- The word-boundary holds between the previous character (`none` at the
string edge) and the head of the remaining input. -/
def wordBoundary (pc : Option Char) (s : List Char) : Bool :=
  isWordOpt pc != isWordOpt s.head?

/-- Greedy Kleene star over a character class, continuation-passing with
backtracking: prefer consuming, fall back to the continuation. -/
def starClsRun (p : Char → Bool) (pc : Option Char) (s : List Char)
    (k : Option Char → List Char → Option (List Char)) : Option (List Char) :=
  match s with
  | [] => k pc []
  | c :: rest =>
    if p c then
      match starClsRun p (some c) rest k with
      | some r => some r
      | none => k pc s
    else k pc s

/-- Backtracking matcher.  `pc` is the character just before the current
position, `k` the continuation; the result is the remaining input after the
first (in backtracking order) successful overall match. -/
def mrun : RE → Option Char → List Char → (Option Char → List Char → Option (List Char)) →
    Option (List Char)
  | .emp, pc, s, k => k pc s
  | .wordB, pc, s, k => if wordBoundary pc s then k pc s else none
  | .cls p, pc, s, k =>
    match s with
    | [] => none
    | c :: rest => if p c then k (some c) rest else none
  | .seq a b, pc, s, k => mrun a pc s (fun pc2 s2 => mrun b pc2 s2 k)
  | .alt a b, pc, s, k =>
    match mrun a pc s k with
    | some r => some r
    | none => mrun b pc s k
  | .opt a, pc, s, k =>
    match mrun a pc s k with
    | some r => some r
    | none => k pc s
  | .starCls p, pc, s, k => starClsRun p pc s k

/-- Length of the match of `re` starting exactly at the head of `s`
(`pc` is the character before that position), if any. -/
def matchLenAt (re : RE) (pc : Option Char) (s : List Char) : Option ℕ :=
  match mrun re pc s (fun _ rem => some rem) with
  | some rem => some (s.length - rem.length)
  | none => none

/-- Scan for the first position (from `pos` on) where `M` matches; returns
(match start, match end). -/
def findMatchAux (M : Option Char → List Char → Option ℕ) (pc : Option Char)
    (s : List Char) (pos : ℕ) : Option (ℕ × ℕ) :=
  match M pc s with
  | some k => some (pos, pos + k)
  | none =>
    match s with
    | [] => none
    | c :: rest => findMatchAux M (some c) rest (pos + 1)

/-- The character before position `i` of `s`, if any. -/
def prevCharAt (s : List Char) (i : ℕ) : Option Char :=
  if i = 0 then none else s[i - 1]?

/-- First match of `M` in `s` at a position `≥ i` (the search model of a
`g`-flagged JS regex whose `lastIndex` is `i`). -/
def findFrom (M : Option Char → List Char → Option ℕ) (s : List Char) (i : ℕ) :
    Option (ℕ × ℕ) :=
  findMatchAux M (prevCharAt s i) (s.drop i) i

/-- `RegExp.prototype.test` on a `g`-flagged regex: search from `lastIndex`;
on success `lastIndex` becomes the match end, on failure it resets to 0. -/
def gTest (M : Option Char → List Char → Option ℕ) (s : List Char) (lastIndex : ℕ) :
    Bool × ℕ :=
  match findFrom M s lastIndex with
  | some (_, e) => (true, e)
  | none => (false, 0)

/-- `String.prototype.replace` with a `g` regex: scan from position 0,
replace every (non-empty) match with `R`, continue after each match.  The
scan advances at least one character per step, so the remaining input
length is a fuel bound; recursing on that bound keeps the function
structurally recursive. -/
def replaceScan (M : Option Char → List Char → Option ℕ) (R : List Char) :
    ℕ → Option Char → List Char → List Char
  | 0, _, s => s
  | fuel + 1, pc, s =>
    match s with
    | [] => []
    | c :: rest =>
      match M pc (c :: rest) with
      | some (k + 1) =>
        R ++ replaceScan M R fuel (((c :: rest).take (k + 1)).getLast?)
          ((c :: rest).drop (k + 1))
      | _ => c :: replaceScan M R fuel (some c) rest

def replaceAll (M : Option Char → List Char → Option ℕ) (R : List Char)
    (s : List Char) : List Char :=
  replaceScan M R s.length none s

/-! ### Pattern constructors -/

/-- Right-nested concatenation of single-character classes in front of a
tail expression. -/
def reChain (ps : List (Char → Bool)) (tail : RE) : RE :=
  ps.foldr (fun p acc => RE.seq (RE.cls p) acc) tail

/-- Case-insensitive literal word (the `i` flag of the harmful-content
patterns), ending in `emp`. -/
def wordCI (w : String) : RE :=
  reChain (w.data.map (fun c => fun x => x.toLower == c)) .emp

/-- Leftmost alternation of a list of alternatives. -/
def altList : List RE → RE
  | [] => .emp
  | [r] => r
  | r :: rs => .alt r (altList rs)

/-- Wrap a core expression in word boundaries on both sides. -/
def bword (core : RE) : RE := .seq .wordB (.seq core .wordB)

/-- The JS dot: any character except a line terminator. -/
def anyDotC : Char → Bool :=
  fun c => !(c == '\n' || c == '\r' || c == '\u2028' || c == '\u2029')

/-- Words joined by a literal JS `.` (any-character) between them, as in
the pattern `self.harm`. -/
def dotJoin : List String → RE
  | [] => .emp
  | [w] => wordCI w
  | w :: ws => .seq (wordCI w) (.seq (.cls anyDotC) (dotJoin ws))

/-- Every character class of the expression rejects the opening bracket of
the redaction marker. -/
def RE.noBrB : RE → Bool
  | .emp => true
  | .wordB => true
  | .cls p => !(p '[')
  | .seq a b => a.noBrB && b.noBrB
  | .alt a b => a.noBrB && b.noBrB
  | .opt a => a.noBrB
  | .starCls p => !(p '[')

/-- The facts about a compiled pattern's match function that the redaction
argument needs: it cannot match the empty string, every match is non-empty
and starts with a character other than the marker's opening bracket, and
the matched span contributes no opening bracket to the count. -/
def SensSpanOk (M : Option Char → List Char → Option ℕ) : Prop :=
  (∀ pc, M pc [] = none) ∧
  (∀ pc c cs n, M pc (c :: cs) = some n → 1 ≤ n ∧ c ≠ '[') ∧
  (∀ pc s n, M pc s = some n → (s.drop n).count '[' = s.count '[')

/-! ## Guardrail data model (src/lib/guardrails/types.ts) -/

inductive Action
  | allow
  | block
  | modify
  | flag
deriving DecidableEq

/-- GuardrailResult.  Severity and rule type are the literal strings of the
source; `confidence` is a rational. -/
structure Verdict where
  action : Action
  reason : String
  originalContent : String
  modifiedContent : Option String
  severity : String
  guardrailType : String
  confidence : ℚ
deriving DecidableEq

/-! ## ContentSafetyGuardrail (src, content-safety rule)

The rule keeps its regex objects in instance fields; because every pattern
carries the `g` flag and is probed with `.test`, each regex object has a
mutable `lastIndex` that survives across calls.  `SafetyState` is exactly
that mutable state: one `lastIndex` per harmful pattern and one per
sensitive pattern, in source order. -/

def digitC : Char → Bool := Char.isDigit

/-- The class `[\s-]`; JS `\s` is modelled by ASCII whitespace. -/
def sepC : Char → Bool := fun c => c.isWhitespace || c == '-'

def dashC : Char → Bool := fun c => c == '-'

def dotC : Char → Bool := fun c => c == '.'

def atC : Char → Bool := fun c => c == '@'

/-- The class `[A-Za-z0-9._%+-]` of the email local part. -/
def localC : Char → Bool :=
  fun c => c.isAlphanum || c == '.' || c == '_' || c == '%' || c == '+' || c == '-'

/-- The class `[A-Za-z0-9.-]` of the email domain. -/
def domainC : Char → Bool := fun c => c.isAlphanum || c == '.' || c == '-'

/-- The class `[A-Z|a-z]` of the email TLD (the `|` is a literal inside the
class, faithfully kept). -/
def tldC : Char → Bool := fun c => c.isAlpha || c == '|'

/-- Harmful pattern 1: violence and harm. -/
def harmful1 : RE :=
  bword (altList (["kill", "murder", "assassinate", "torture", "harm", "hurt",
    "violence", "weapon", "bomb", "explosive"].map wordCI))

/-- Harmful pattern 2: illegal activities. -/
def harmful2 : RE :=
  bword (altList (["drug", "cocaine", "heroin", "meth", "illegal", "hack",
    "crack", "pirate", "steal", "fraud"].map wordCI))

/-- Harmful pattern 3: hate speech. -/
def harmful3 : RE :=
  bword (altList (["nazi", "terrorist", "extremist", "radical",
    "supremacist"].map wordCI))

/-- Harmful pattern 4: self-harm (the dots of the source pattern are regex
dots). -/
def harmful4 : RE :=
  bword (altList [wordCI "suicide", dotJoin ["self", "harm"],
    dotJoin ["cut", "myself"], dotJoin ["end", "my", "life"]])

def harmfulPatterns : List RE := [harmful1, harmful2, harmful3, harmful4]

/-- Sensitive pattern: SSN. -/
def ssnRE : RE :=
  .seq .wordB (reChain [digitC, digitC, digitC, dashC, digitC, digitC, dashC,
    digitC, digitC, digitC, digitC] .wordB)

/-- Sensitive pattern: credit card. -/
def ccRE : RE :=
  .seq .wordB (reChain [digitC, digitC, digitC, digitC]
    (.seq (.opt (.cls sepC)) (reChain [digitC, digitC, digitC, digitC]
      (.seq (.opt (.cls sepC)) (reChain [digitC, digitC, digitC, digitC]
        (.seq (.opt (.cls sepC)) (reChain [digitC, digitC, digitC, digitC] .wordB)))))))

/-- Sensitive pattern: email address. -/
def emailRE : RE :=
  .seq .wordB (.seq (.cls localC) (.seq (.starCls localC) (.seq (.cls atC)
    (.seq (.cls domainC) (.seq (.starCls domainC) (.seq (.cls dotC)
      (.seq (.cls tldC) (.seq (.cls tldC) (.seq (.starCls tldC) .wordB)))))))))

/-- Sensitive pattern: phone number. -/
def phoneRE : RE :=
  .seq .wordB (reChain [digitC, digitC, digitC]
    (.seq (.opt (.cls sepC)) (reChain [digitC, digitC, digitC]
      (.seq (.opt (.cls sepC)) (reChain [digitC, digitC, digitC, digitC] .wordB)))))

def sensitivePatterns : List RE := [ssnRE, ccRE, emailRE, phoneRE]

def redactedMarker : List Char := "[REDACTED]".data

/-- The persistent `lastIndex` of each `g`-flagged regex object of the rule
instance, in source order. -/
structure SafetyState where
  harmIdx : List ℕ
  sensIdx : List ℕ
deriving DecidableEq

def freshSafetyState : SafetyState := ⟨[0, 0, 0, 0], [0, 0, 0, 0]⟩

/-- The harmful-content loop: `for (pattern of harmfulPatterns) if
(pattern.test(content)) return block` — it stops at the first match, so the
later patterns keep their `lastIndex` untouched. -/
def testHarmful : List RE → List ℕ → List Char → Bool × List ℕ
  | [], _, _ => (false, [])
  | _ :: _, [], _ => (false, [])
  | p :: ps, i :: is, s =>
    match gTest (matchLenAt p) s i with
    | (true, i2) => (true, i2 :: is)
    | (false, i2) =>
      match testHarmful ps is s with
      | (b, is2) => (b, i2 :: is2)

/-- The sensitive-information loop: every pattern is tested against the
original `content`, and on a hit `modifiedContent` is rewritten by a global
replace.  Returns (final modified content, any hit, new lastIndex list). -/
def redactLoop : List RE → List ℕ → List Char → List Char →
    List Char × Bool × List ℕ
  | [], _, _, modified => (modified, false, [])
  | _ :: _, [], _, modified => (modified, false, [])
  | p :: ps, i :: is, content, modified =>
    match gTest (matchLenAt p) content i with
    | (b, i2) =>
      let modified2 := if b then replaceAll (matchLenAt p) redactedMarker modified else modified
      match redactLoop ps is content modified2 with
      | (fin, has, is2) => (fin, b || has, i2 :: is2)

/-- ContentSafetyGuardrail.checkInput.  The verdict fields are the literal
createResult arguments of the source. -/
def contentSafetyCheckInput (st : SafetyState) (content : String) :
    Verdict × SafetyState :=
  let s := content.data
  match testHarmful harmfulPatterns st.harmIdx s with
  | (true, harmIdx2) =>
    ({ action := .block,
       reason := "Content contains potentially harmful or dangerous information",
       originalContent := content, modifiedContent := none, severity := "high",
       guardrailType := "content_safety", confidence := 9 / 10 },
     ⟨harmIdx2, st.sensIdx⟩)
  | (false, harmIdx2) =>
    match redactLoop sensitivePatterns st.sensIdx s s with
    | (modified, true, sensIdx2) =>
      ({ action := .modify,
         reason := "Sensitive personal information detected and redacted",
         originalContent := content, modifiedContent := some (String.mk modified),
         severity := "medium", guardrailType := "content_safety",
         confidence := 95 / 100 },
       ⟨harmIdx2, sensIdx2⟩)
    | (_, false, sensIdx2) =>
      ({ action := .allow, reason := "Content passed safety checks",
         originalContent := content, modifiedContent := none, severity := "low",
         guardrailType := "content_safety", confidence := 1 },
       ⟨harmIdx2, sensIdx2⟩)

/-! ## GuardrailsMiddleware (src/lib/guardrails/middleware.ts)

The middleware is modelled per call: a rule is a named, enabled-flagged
function from the current content to a verdict, or to a thrown error
(`Except.error`), exactly the surface `processInput` interacts with.  The
`logLevel`, `customRules` and `rateLimits` configuration fields only feed
the database logging side effect and are not part of the returned result,
so they are not modelled. -/

structure GuardrailConfig where
  enabled : Bool
  strictMode : Bool
  whitelist : List String
  blacklist : List String

structure Rule where
  name : String
  enabled : Bool
  checkInput : String → Except String Verdict

/-- Metacharacters of JS regex source syntax. -/
def isMetaChar (c : Char) : Bool :=
  c == '\\' || c == '^' || c == '$' || c == '.' || c == '|' || c == '?' ||
  c == '*' || c == '+' || c == '(' || c == ')' || c == '[' || c == ']' ||
  c == '{' || c == '}'

/-- Parser for `new RegExp(pattern, "i")` on the modelled fragment: literal
characters (case-insensitive, from the `i` flag), `.`, `\d`, `\s` and
escaped metacharacters.  A pattern outside the fragment — which includes
every pattern that is a JS syntax error, such as a lone `(` — yields `none`
and is handled by the caller's catch branch. -/
def parseRE : List Char → Option RE
  | [] => some .emp
  | '.' :: rest => (parseRE rest).map (fun r => .seq (.cls anyDotC) r)
  | '\\' :: [] => none
  | '\\' :: c :: rest =>
    if c == 'd' then (parseRE rest).map (fun r => .seq (.cls digitC) r)
    else if c == 's' then (parseRE rest).map (fun r => .seq (.cls Char.isWhitespace) r)
    else if isMetaChar c then (parseRE rest).map (fun r => .seq (.cls (fun x => x == c)) r)
    else none
  | c :: rest =>
    if isMetaChar c then none
    else (parseRE rest).map (fun r => .seq (.cls (fun x => x.toLower == c.toLower)) r)

/-- Unanchored search of a compiled (non-global) regex: `regex.test(content)`. -/
def reSearch (re : RE) (s : List Char) : Bool :=
  (findFrom (matchLenAt re) s 0).isSome

/-- `content.toLowerCase().includes(pattern.toLowerCase())`. -/
def strIncludes (hay needle : List Char) : Bool :=
  match hay with
  | [] => needle.isEmpty
  | _ :: t => needle.isPrefixOf hay || strIncludes t needle

/-- One whitelist/blacklist pattern test: try the pattern as a
case-insensitive regex; on failure to compile, fall back to
case-insensitive substring containment. -/
def jsTestPattern (pattern content : String) : Bool :=
  match parseRE pattern.data with
  | some re => reSearch re content.data
  | none => strIncludes (content.data.map Char.toLower) (pattern.data.map Char.toLower)

def isWhitelisted (cfg : GuardrailConfig) (content : String) : Bool :=
  if cfg.whitelist.isEmpty then false
  else cfg.whitelist.any (fun pattern => jsTestPattern pattern content)

def isBlacklisted (cfg : GuardrailConfig) (content : String) : Bool :=
  if cfg.blacklist.isEmpty then false
  else cfg.blacklist.any (fun pattern => jsTestPattern pattern content)

def whitelistVerdict (content : String) : Verdict :=
  { action := .allow, reason := "Content is whitelisted", originalContent := content,
    modifiedContent := none, severity := "low", guardrailType := "whitelist",
    confidence := 1 }

def blacklistVerdict (content : String) : Verdict :=
  { action := .block, reason := "Content is blacklisted", originalContent := content,
    modifiedContent := none, severity := "high", guardrailType := "blacklist",
    confidence := 1 }

def systemErrorVerdict (ruleName orig : String) : Verdict :=
  { action := .block, reason := "Guardrail system error: " ++ ruleName,
    originalContent := orig, modifiedContent := none, severity := "critical",
    guardrailType := "system_error", confidence := 1 }

/-- The mutable locals of processInput while iterating the rule chain. -/
structure PipeState where
  results : List Verdict
  processedContent : String
  blocked : Bool
  flagged : Bool
deriving DecidableEq

/-- The switch on the verdict's action inside the rule loop: push the
verdict, then mark blocked, rewrite the working content, or mark flagged. -/
def applyVerdict (st : PipeState) (v : Verdict) : PipeState :=
  let st1 := { st with results := st.results ++ [v] }
  match v.action with
  | .block => { st1 with blocked := true }
  | .modify =>
    match v.modifiedContent with
    | some mc => { st1 with processedContent := mc }
    | none => st1
  | .flag => { st1 with flagged := true }
  | .allow => st1

/-- The rule loop of processInput.  Besides the final state it returns an
execution trace: for every rule whose checkInput was invoked, its name and
the content it was invoked on. -/
def runRulesT (cfg : GuardrailConfig) (orig : String) :
    List Rule → PipeState → PipeState × List (String × String)
  | [], st => (st, [])
  | g :: gs, st =>
    if g.enabled = false then runRulesT cfg orig gs st
    else
      match g.checkInput st.processedContent with
      | .ok v =>
        let st2 := applyVerdict st v
        if st2.blocked && cfg.strictMode then (st2, [(g.name, st.processedContent)])
        else
          match runRulesT cfg orig gs st2 with
          | (stf, tr) => (stf, (g.name, st.processedContent) :: tr)
      | .error _ =>
        if cfg.strictMode then
          ({ st with
              blocked := true
              results := st.results ++ [systemErrorVerdict g.name orig] },
           [(g.name, st.processedContent)])
        else
          match runRulesT cfg orig gs st with
          | (stf, tr) => (stf, (g.name, st.processedContent) :: tr)

structure ProcessResult where
  allowed : Bool
  content : String
  results : List Verdict
  flagged : Bool
deriving DecidableEq

/-- GuardrailsMiddleware.processInput (with the execution trace exposed).
The wall-clock totalTime field and the fire-and-forget database logging are
not modelled. -/
def processInputT (cfg : GuardrailConfig) (rules : List Rule) (content : String) :
    ProcessResult × List (String × String) :=
  if cfg.enabled = false then (⟨true, content, [], false⟩, [])
  else if isWhitelisted cfg content then
    (⟨true, content, [whitelistVerdict content], false⟩, [])
  else
    let bl := isBlacklisted cfg content
    let st0 : PipeState :=
      ⟨if bl then [blacklistVerdict content] else [], content, bl, false⟩
    match runRulesT cfg content rules st0 with
    | (st, tr) => (⟨!st.blocked, st.processedContent, st.results, st.flagged⟩, tr)

/-! ## RateLimitGuardrail (src, rate-limit rule) -/

inductive Tier
  | free
  | pro
  | enterprise
deriving DecidableEq

structure TierLimits where
  requestsPerMinute : ℕ
  requestsPerHour : ℕ
  tokensPerDay : ℕ
  concurrentRequests : ℕ

def rlLimits : Tier → TierLimits
  | .free => ⟨10, 100, 10000, 2⟩
  | .pro => ⟨60, 1000, 100000, 5⟩
  | .enterprise => ⟨300, 10000, 1000000, 20⟩

structure RateLimitEntry where
  count : ℕ
  tokens : ℕ
  lastReset : ℕ
  concurrent : ℕ
deriving DecidableEq

/-- The per-identity map `userLimits` (the `ipLimits` map of the source is
never consulted). -/
def RLStore : Type := String → Option RateLimitEntry

def storeSet (store : RLStore) (u : String) (e : RateLimitEntry) : RLStore :=
  fun u2 => if u2 = u then some e else store u2

/-- `context.userId || "anonymous"`: JS `||` replaces both a missing and an
empty identity. -/
def effUserId : Option String → String
  | none => "anonymous"
  | some s => if s = "" then "anonymous" else s

/-- `Math.ceil(content.length / 4)`. -/
def estimateTokens (content : String) : ℕ := (content.length + 3) / 4

def rlBlockVerdict (reason content : String) : Verdict :=
  { action := .block, reason := reason, originalContent := content,
    modifiedContent := none, severity := "medium",
    guardrailType := "rate_limit", confidence := 1 }

def rlAllowVerdict (reason content : String) : Verdict :=
  { action := .allow, reason := reason, originalContent := content,
    modifiedContent := none, severity := "low",
    guardrailType := "rate_limit", confidence := 1 }

/-- RateLimitGuardrail.checkInput.  The entry object is mutated in place in
the source, so the store update persists in every branch; a fresh entry is
created with `lastReset = now`.  Both elapsed-time quotients are computed
from the entry's `lastReset` as read at the start of the call. -/
def rlCheckInput (store : RLStore) (content : String) (userId : Option String)
    (tier : Tier) (now : ℕ) : Verdict × RLStore :=
  let u := effUserId userId
  let limits := rlLimits tier
  let entry0 := (store u).getD ⟨0, 0, now, 0⟩
  let minuteElapsed := 60000 ≤ now - entry0.lastReset
  let dayElapsed := 86400000 ≤ now - entry0.lastReset
  let entry1 := if minuteElapsed then { entry0 with count := 0, lastReset := now } else entry0
  let entry2 := if dayElapsed then { entry1 with tokens := 0 } else entry1
  if limits.concurrentRequests ≤ entry2.concurrent then
    (rlBlockVerdict ("Too many concurrent requests. Limit: " ++
       toString limits.concurrentRequests) content,
     storeSet store u entry2)
  else if limits.requestsPerMinute ≤ entry2.count then
    (rlBlockVerdict ("Rate limit exceeded. Limit: " ++
       toString limits.requestsPerMinute ++ " requests per minute") content,
     storeSet store u entry2)
  else if limits.tokensPerDay < entry2.tokens + estimateTokens content then
    (rlBlockVerdict ("Daily token limit exceeded. Limit: " ++
       toString limits.tokensPerDay ++ " tokens per day") content,
     storeSet store u entry2)
  else
    (rlAllowVerdict "Rate limit check passed" content,
     storeSet store u
       { entry2 with
          count := entry2.count + 1
          tokens := entry2.tokens + estimateTokens content
          concurrent := entry2.concurrent + 1 })

/-- RateLimitGuardrail.checkOutput: release one concurrent slot. -/
def rlCheckOutput (store : RLStore) (content : String) (userId : Option String) :
    Verdict × RLStore :=
  let u := effUserId userId
  let store2 :=
    match store u with
    | some e => if 0 < e.concurrent then storeSet store u { e with concurrent := e.concurrent - 1 } else store
    | none => store
  (rlAllowVerdict "Output rate limit check passed" content, store2)

/-- One request lifecycle: checkInput immediately paired with checkOutput. -/
def rlPair (store : RLStore) (content : String) (userId : Option String)
    (tier : Tier) (t : ℕ) : Verdict × RLStore :=
  match rlCheckInput store content userId tier t with
  | (v, s1) => (v, (rlCheckOutput s1 content userId).2)

def rlRunPairs (store : RLStore) (content : String) (userId : Option String)
    (tier : Tier) : List ℕ → List Verdict × RLStore
  | [] => ([], store)
  | t :: ts =>
    match rlPair store content userId tier t with
    | (v, s2) =>
      match rlRunPairs s2 content userId tier ts with
      | (vs, s3) => (v :: vs, s3)

/-! ## AIClient (src/lib/ai/client.ts) and the model table shape
(src/lib/config/models.ts) -/

structure Pricing where
  inputTokens : ℚ
  outputTokens : ℚ
  tier : String
deriving DecidableEq

structure Capabilities where
  contextWindow : ℚ
deriving DecidableEq

structure ModelConfig where
  id : String
  provider : String
  enabled : Bool
  pricing : Pricing
  capabilities : Capabilities
deriving DecidableEq

/-- The modelConfigs object: an association list in property-insertion
order (the iteration order of Object.values). -/
def configsGet (configs : List (String × ModelConfig)) (m : String) :
    Option ModelConfig :=
  (configs.find? (fun e => e.1 == m)).map Prod.snd

def calculateCost (configs : List (String × ModelConfig)) (modelId : String)
    (inputTokens outputTokens : ℕ) : ℚ :=
  match configsGet configs modelId with
  | none => 0
  | some model =>
    (inputTokens : ℚ) / 1000 * model.pricing.inputTokens +
      (outputTokens : ℚ) / 1000 * model.pricing.outputTokens

structure AIClientOptions where
  maxRetries : ℕ
  retryDelay : ℕ
  fallbackModels : List String
  enableFallback : Bool

/-- Ascending comparison on the input-token price, the order of the JS
comparator sort. -/
def priceLE (a b : ModelConfig) : Prop :=
  a.pricing.inputTokens ≤ b.pricing.inputTokens

instance : DecidableRel priceLE :=
  fun a b => inferInstanceAs (Decidable (a.pricing.inputTokens ≤ b.pricing.inputTokens))

instance : IsTotal ModelConfig priceLE :=
  ⟨fun a b => le_total a.pricing.inputTokens b.pricing.inputTokens⟩

instance : IsTrans ModelConfig priceLE :=
  ⟨fun _ _ _ h1 h2 => le_trans h1 h2⟩

/-- AIClient.getAutomaticFallbacks.  The JS comparator sort on the input
price is a stable ascending sort, modelled by the (stable) insertion sort. -/
def getAutomaticFallbacks (configs : List (String × ModelConfig))
    (preferredConfig : ModelConfig) : List String :=
  let sameProviderModels :=
    (List.insertionSort priceLE ((configs.map Prod.snd).filter (fun c =>
        c.provider == preferredConfig.provider && c.id != preferredConfig.id &&
        c.enabled && c.pricing.tier != "premium"))).map (fun c => c.id)
  let crossProviderModels :=
    (List.insertionSort priceLE ((configs.map Prod.snd).filter (fun c =>
        c.provider != preferredConfig.provider && c.enabled &&
        decide (preferredConfig.capabilities.contextWindow * (1 / 2) ≤
          c.capabilities.contextWindow)))).map (fun c => c.id)
  sameProviderModels.take 2 ++ crossProviderModels.take 2

/-- `[...new Set(models)]`: keep the first occurrence of each element, in
order (Set iteration order is insertion order). -/
def jsSetDedupAux (seen : List String) : List String → List String
  | [] => []
  | x :: xs =>
    if x ∈ seen then jsSetDedupAux seen xs else x :: jsSetDedupAux (x :: seen) xs

def jsSetDedup (l : List String) : List String := jsSetDedupAux [] l

/-- The spec-side formulation of first-occurrence deduplication ("deduplicate
preserving first occurrence"), written as a left fold for comparison with
the Set-based code. -/
def dedupFirst (l : List String) : List String :=
  l.foldl (fun acc x => if x ∈ acc then acc else acc ++ [x]) []

/-- AIClient.getModelsToTry. -/
def getModelsToTry (opts : AIClientOptions) (configs : List (String × ModelConfig))
    (preferredModelId : String) : List String :=
  let models :=
    if opts.enableFallback then
      [preferredModelId] ++ opts.fallbackModels ++
        (match configsGet configs preferredModelId with
         | some preferredConfig => getAutomaticFallbacks configs preferredConfig
         | none => [])
    else [preferredModelId]
  jsSetDedup models

/-- What a provider adapter returns from generateText. -/
structure GenResponse where
  content : String
  inputTokens : ℕ
  outputTokens : ℕ
deriving DecidableEq

/-- The AIResponse returned by AIClient.generateText (cost attached, model
substituted). -/
structure AIResponseOut where
  content : String
  model : String
  cost : ℚ
  inputTokens : ℕ
  outputTokens : ℕ
deriving DecidableEq

/-- The environment generateText runs against: the model table, whether the
registry can resolve a provider for a model (getProviderForModel throws
otherwise), and the adapter outcome for each model and attempt number.  The
backoff delays do not influence any result and are not modelled. -/
structure GenEnv where
  configs : List (String × ModelConfig)
  registryOk : String → Bool
  adapter : String → ℕ → Except String GenResponse

/-- executeWithRetry, unrolled from attempt number `attempt` with `n` more
attempts allowed after the current one; returns the outcome together with
the number of attempts actually made. -/
def executeWithRetryGo (op : ℕ → Except String GenResponse) (attempt : ℕ) :
    ℕ → Except String GenResponse × ℕ
  | 0 => (op attempt, attempt + 1)
  | n + 1 =>
    match op attempt with
    | .ok r => (.ok r, attempt + 1)
    | .error _ => executeWithRetryGo op (attempt + 1) n

/-- AIClient.executeWithRetry: attempts `0..maxRetries`, returning the first
success or the last error, plus the attempt count. -/
def executeWithRetry (op : ℕ → Except String GenResponse) (maxRetries : ℕ) :
    Except String GenResponse × ℕ :=
  executeWithRetryGo op 0 maxRetries

def mkResponse (configs : List (String × ModelConfig)) (m : String)
    (r : GenResponse) : AIResponseOut :=
  { content := r.content, model := m,
    cost := calculateCost configs m r.inputTokens r.outputTokens,
    inputTokens := r.inputTokens, outputTokens := r.outputTokens }

/-- The try block body for one candidate: resolve the provider (which can
throw before any attempt is made), then run the retry loop.  Returns the
outcome and the number of adapter attempts. -/
def tryModel (opts : AIClientOptions) (env : GenEnv) (m : String) :
    Except String AIResponseOut × ℕ :=
  if env.registryOk m then
    match executeWithRetry (env.adapter m) opts.maxRetries with
    | (.ok r, n) => (.ok (mkResponse env.configs m r), n)
    | (.error e, n) => (.error e, n)
  else (.error ("Provider not available for model " ++ m), 0)

/-- The candidate loop of AIClient.generateText, with an attempt log: one
(model, attempts) entry per candidate whose try block ran.  On a failure the
loop continues only when the failing candidate is the originally requested
model and fallback is enabled; otherwise it breaks and the last error is
thrown. -/
def genLoop (opts : AIClientOptions) (env : GenEnv) (reqModel : String)
    (lastError : Option String) :
    List String → Except String AIResponseOut × List (String × ℕ)
  | [] => (.error (lastError.getD "All models failed"), [])
  | m :: rest =>
    match configsGet env.configs m with
    | none => genLoop opts env reqModel lastError rest
    | some cfg =>
      if cfg.enabled = false then genLoop opts env reqModel lastError rest
      else
        match tryModel opts env m with
        | (.ok r, n) => (.ok r, [(m, n)])
        | (.error e, n) =>
          if m == reqModel && opts.enableFallback then
            match genLoop opts env reqModel (some e) rest with
            | (res, tr) => (res, (m, n) :: tr)
          else (.error e, [(m, n)])

/-- AIClient.generateText for a request with the given preferred model id. -/
def generateText (opts : AIClientOptions) (env : GenEnv) (reqModel : String) :
    Except String AIResponseOut × List (String × ℕ) :=
  genLoop opts env reqModel none (getModelsToTry opts env.configs reqModel)

/-! ### AIClient.streamText -/

inductive SChunk
  | text (delta : String)
  | done (inputTokens outputTokens : ℕ) (cost : Option ℚ)
  | error (msg : String)
deriving DecidableEq

/-- The per-chunk transformation of the streaming loop: a done chunk with
usage gets the cost attached; every other chunk is forwarded unchanged. -/
def transformChunk (configs : List (String × ModelConfig)) (m : String) :
    SChunk → SChunk
  | .done i o _ => .done i o (some (calculateCost configs m i o))
  | c => c

/-- A provider stream for one model: the chunks it yields in order, and
(optionally) the error it throws after yielding them; `none` means the
stream completes normally. -/
structure StreamEnv where
  configs : List (String × ModelConfig)
  registryOk : String → Bool
  streamOf : String → List SChunk × Option String

/-- The candidate loop of AIClient.streamText: the full sequence of chunks
the caller receives.  Chunks yielded before a mid-stream throw have already
been forwarded; the catch then either continues with the next candidate
(preferred model, fallback enabled) or breaks, after which the trailing
error chunk is yielded. -/
def streamLoop (opts : AIClientOptions) (env : StreamEnv) (reqModel : String)
    (lastError : Option String) : List String → List SChunk
  | [] => [.error (lastError.getD "All models failed")]
  | m :: rest =>
    match configsGet env.configs m with
    | none => streamLoop opts env reqModel lastError rest
    | some cfg =>
      if cfg.enabled = false then streamLoop opts env reqModel lastError rest
      else
        match
          (if env.registryOk m then env.streamOf m
           else ([], some ("Provider not available for model " ++ m))) with
        | (chunks, errOut) =>
          let out := chunks.map (transformChunk env.configs m)
          match errOut with
          | none => out
          | some e =>
            if m == reqModel && opts.enableFallback then
              out ++ streamLoop opts env reqModel (some e) rest
            else out ++ [.error e]

/-- AIClient.streamText for a request with the given preferred model id. -/
def streamText (opts : AIClientOptions) (env : StreamEnv) (reqModel : String) :
    List SChunk :=
  streamLoop opts env reqModel none (getModelsToTry opts env.configs reqModel)

/-! ## Concrete environments used in counterexamples and witnesses -/

def exPricing : Pricing := ⟨1, 1, "premium"⟩

def exCfg (i prov : String) (cw : ℚ) : ModelConfig :=
  ⟨i, prov, true, exPricing, ⟨cw⟩⟩

/-- Three enabled premium models on one provider; the premium tier keeps
the automatic same-provider fallbacks empty and the shared provider keeps
the cross-provider fallbacks empty, so the candidate list is exactly the
preferred model plus the two configured fallbacks. -/
def c1configs : List (String × ModelConfig) :=
  [("model-p", exCfg "model-p" "prov-a" 100),
   ("model-f1", exCfg "model-f1" "prov-a" 10),
   ("model-f2", exCfg "model-f2" "prov-a" 10)]

def c1opts : AIClientOptions := ⟨1, 1000, ["model-f1", "model-f2"], true⟩

/-- Adapters: the preferred model and the first fallback always fail, the
second fallback always succeeds. -/
def c1env : GenEnv :=
  ⟨c1configs, fun _ => true, fun m k =>
    if m = "model-f2" then .ok ⟨"from-f2", 5, 7⟩
    else .error (m ++ "-fail-" ++ toString k)⟩

def c2configs : List (String × ModelConfig) :=
  [("s-p", exCfg "s-p" "prov-a" 100), ("s-f1", exCfg "s-f1" "prov-a" 10)]

def c2opts : AIClientOptions := ⟨3, 1000, ["s-f1"], true⟩

/-- The preferred model yields two text chunks and then throws mid-stream;
the configured fallback streams to completion. -/
def c2env : StreamEnv :=
  ⟨c2configs, fun _ => true, fun m =>
    if m = "s-p" then ([.text "a", .text "b"], some "mid-stream failure")
    else ([.text "c", .done 10 20 none], none)⟩

/-- A three-request run for one identity on the free tier: requests at
t = 0, t = 12h and t = 25h, each checkInput paired with a checkOutput. -/
def c5u : Option String := some "user-1"

def c5s1 : RLStore := (rlCheckInput (fun _ => none) "aaaa" c5u .free 0).2

def c5s2 : RLStore := (rlCheckOutput c5s1 "aaaa" c5u).2

def c5s3 : RLStore := (rlCheckInput c5s2 "aaaa" c5u .free 43200000).2

def c5s4 : RLStore := (rlCheckOutput c5s3 "aaaa" c5u).2

def c5v3 : Verdict := (rlCheckInput c5s4 "aaaa" c5u .free 90000000).1

def c5s5 : RLStore := (rlCheckInput c5s4 "aaaa" c5u .free 90000000).2

/-- A rule that always allows, used to observe the chain. -/
def allowRule (nm : String) : Rule :=
  ⟨nm, true, fun c =>
    .ok { action := .allow, reason := "ok", originalContent := c
          modifiedContent := none, severity := "low", guardrailType := "probe"
          confidence := 1 }⟩

/-- A rule that always blocks. -/
def blockRule (nm : String) : Rule :=
  ⟨nm, true, fun c =>
    .ok { action := .block, reason := "no", originalContent := c
          modifiedContent := none, severity := "high", guardrailType := "probe"
          confidence := 1 }⟩

/-- The content-safety rule wrapped as a pipeline rule, with the regex
state it holds at the time of the call. -/
def contentSafetyRule (st : SafetyState) : Rule :=
  ⟨"Content Safety", true, fun c => .ok (contentSafetyCheckInput st c).1⟩

def c7cfg : GuardrailConfig := ⟨true, false, ["hello"], ["hello world"]⟩

def c3cfg : GuardrailConfig := ⟨true, false, [], ["badword"]⟩

def c3cfgStrict : GuardrailConfig := ⟨true, true, [], []⟩

/-! ## Theorems -/

theorem executeWithRetryGo_allFail (op : ℕ → Except String GenResponse)
    (f : ℕ → String) (hop : ∀ j, op j = .error (f j)) :
    ∀ n a, executeWithRetryGo op a n = (.error (f (a + n)), a + n + 1) := by
  intro n
  induction n with
  | zero => intro a; simp [executeWithRetryGo, hop a]
  | succ n ih =>
    intro a
    have h2 := ih (a + 1)
    simp only [executeWithRetryGo, hop a, h2]
    have h3 : a + 1 + n = a + (n + 1) := by omega
    rw [h3]

theorem executeWithRetry_allFail (op : ℕ → Except String GenResponse)
    (f : ℕ → String) (hop : ∀ j, op j = .error (f j)) (maxRetries : ℕ) :
    executeWithRetry op maxRetries = (.error (f maxRetries), maxRetries + 1) := by
  simpa using executeWithRetryGo_allFail op f hop maxRetries 0

/-- C8: in generateText, a candidate that fails after exhausting its retries
leads to the next candidate exactly when it is the originally preferred
model and fallback is enabled; a failing fallback candidate stops the
iteration regardless of the remaining candidates, and the last underlying
error is raised to the caller. -/
theorem C8_fallback_policy :
    ∀ (opts : AIClientOptions) (env : GenEnv) (reqM m : String)
      (cfg : ModelConfig) (rest : List String) (le0 : Option String)
      (e : String) (n : ℕ),
      configsGet env.configs m = some cfg → cfg.enabled = true →
      tryModel opts env m = (.error e, n) →
      ((m = reqM → opts.enableFallback = true →
          genLoop opts env reqM le0 (m :: rest) =
            ((genLoop opts env reqM (some e) rest).1,
             (m, n) :: (genLoop opts env reqM (some e) rest).2)) ∧
       (m ≠ reqM →
          genLoop opts env reqM le0 (m :: rest) = (.error e, [(m, n)]))) := by
  intro opts env reqM m cfg rest le0 e n hget hen htry
  constructor
  · intro hm hef
    subst hm
    rcases hg : genLoop opts env m (some e) rest with ⟨res, tr⟩
    simp [genLoop, hget, hen, htry, hef, hg]
  · intro hne
    have : (m == reqM) = false := by simpa [beq_iff_eq] using hne
    simp [genLoop, hget, hen, htry, this]

/-- C8 witness: with the concrete failing environment, the fallback
candidate model-f1 fails and the loop stops without touching the remaining
candidate. -/
theorem C8_witness :
    genLoop c1opts c1env "model-p" none ["model-f1", "model-x"] =
      (.error "model-f1-fail-1", [("model-f1", 2)]) :=
  (C8_fallback_policy c1opts c1env "model-p" "model-f1"
    (exCfg "model-f1" "prov-a" 10) ["model-x"] none "model-f1-fail-1" 2
    rfl rfl rfl).2 (by decide)

/-- C1 counterexample: preferred model and both configured fallbacks are
enabled, the preferred model and the first fallback always fail, the second
always succeeds (c1env), and maxRetries is 1.  The claim predicts a
successful result carrying the second fallback's id after maxRetries+1
attempts against each of the first two models; the code instead stops after
the first fallback fails — the call throws the first fallback's last error,
and the attempt log shows the second fallback was never attempted. -/
theorem C1_counterexample :
    generateText c1opts c1env "model-p" =
      (.error "model-f1-fail-1", [("model-p", 2), ("model-f1", 2)]) := rfl

/-- C1 (amended): when the preferred model's adapter always fails and the
first configured fallback's adapter always fails, generateText makes
exactly maxRetries+1 attempts against the preferred model and maxRetries+1
against the first fallback, then raises the first fallback's last error;
no later candidate (in particular the second configured fallback) is ever
attempted. -/
theorem C1_amended_fallback_abort :
    ∀ (opts : AIClientOptions) (env : GenEnv) (p f1 : String) (rest : List String)
      (cfgp cfg1 : ModelConfig) (ep ef : ℕ → String),
      opts.enableFallback = true →
      getModelsToTry opts env.configs p = p :: f1 :: rest →
      f1 ≠ p →
      configsGet env.configs p = some cfgp → cfgp.enabled = true →
      configsGet env.configs f1 = some cfg1 → cfg1.enabled = true →
      env.registryOk p = true → env.registryOk f1 = true →
      (∀ k, env.adapter p k = .error (ep k)) →
      (∀ k, env.adapter f1 k = .error (ef k)) →
      generateText opts env p =
        (.error (ef opts.maxRetries),
         [(p, opts.maxRetries + 1), (f1, opts.maxRetries + 1)]) := by
  intro opts env p f1 rest cfgp cfg1 ep ef hef hcand hne hgp hgpe hg1 hg1e hrp hr1 hap haf
  have htp : tryModel opts env p = (.error (ep opts.maxRetries), opts.maxRetries + 1) := by
    simp [tryModel, hrp, executeWithRetry_allFail (env.adapter p) ep hap]
  have htf : tryModel opts env f1 = (.error (ef opts.maxRetries), opts.maxRetries + 1) := by
    simp [tryModel, hr1, executeWithRetry_allFail (env.adapter f1) ef haf]
  have hne2 : (f1 == p) = false := by simpa [beq_iff_eq] using hne
  rw [generateText, hcand]
  simp [genLoop, hgp, hgpe, htp, hg1, hg1e, htf, hef, hne2]

/-- C1 witness: the amended statement instantiated on the concrete failing
environment (maxRetries = 1, fallbacks model-f1 and model-f2). -/
theorem C1_amended_witness :
    generateText c1opts c1env "model-p" =
      (.error ("model-f1-fail-" ++ toString 1),
       [("model-p", 1 + 1), ("model-f1", 1 + 1)]) :=
  C1_amended_fallback_abort c1opts c1env "model-p" "model-f1" ["model-f2"]
    (exCfg "model-p" "prov-a" 100) (exCfg "model-f1" "prov-a" 10)
    (fun k => "model-p-fail-" ++ toString k) (fun k => "model-f1-fail-" ++ toString k)
    rfl rfl (by decide) rfl rfl rfl rfl rfl rfl
    (fun k => rfl) (fun k => rfl)

/-- C2 counterexample: the preferred adapter yields two text chunks and then
fails mid-stream, with one enabled configured fallback (c2env).  The claim
predicts the two yielded chunks followed by exactly one error chunk with no
fallback attempted; the code instead catches the mid-stream error and moves
on to the fallback candidate, so the caller receives the fallback's chunks
appended after the partial output, and no error chunk at all. -/
theorem C2_counterexample :
    streamText c2opts c2env "s-p" =
      [.text "a", .text "b", .text "c",
       .done 10 20 (some (calculateCost c2configs "s-f1" 10 20))] := rfl

/-- C2 (amended): when a candidate fails after yielding chunks mid-stream,
the already-yielded chunks are followed by exactly one error chunk and no
further candidate is attempted only if the failing candidate is not the
preferred model (or fallback is disabled); when the preferred model fails
mid-stream with fallback enabled, iteration continues and the next
candidate's chunks are appended after the partial output. -/
theorem C2_amended_stream_failure :
    ∀ (opts : AIClientOptions) (env : StreamEnv) (reqM m : String)
      (cfg : ModelConfig) (rest : List String) (le0 : Option String)
      (chunks : List SChunk) (e : String),
      configsGet env.configs m = some cfg → cfg.enabled = true →
      env.registryOk m = true → env.streamOf m = (chunks, some e) →
      ((m ≠ reqM →
          streamLoop opts env reqM le0 (m :: rest) =
            chunks.map (transformChunk env.configs m) ++ [.error e]) ∧
       (m = reqM → opts.enableFallback = true →
          streamLoop opts env reqM le0 (m :: rest) =
            chunks.map (transformChunk env.configs m) ++
              streamLoop opts env reqM (some e) rest)) := by
  intro opts env reqM m cfg rest le0 chunks e hget hen hreg hstream
  constructor
  · intro hne
    have : (m == reqM) = false := by simpa [beq_iff_eq] using hne
    simp [streamLoop, hget, hen, hreg, hstream, this]
  · intro hm hef
    subst hm
    simp [streamLoop, hget, hen, hreg, hstream, hef]

/-- C2 witness: the amended statement instantiated on the concrete
environment, in the case where the failing candidate has no fallback
behind it: the two yielded chunks are followed by exactly one error chunk. -/
theorem C2_amended_witness :
    streamLoop c2opts c2env "s-p" none ["s-p"] =
      [.text "a", .text "b", .error "mid-stream failure"] := by
  have h := (C2_amended_stream_failure c2opts c2env "s-p" "s-p"
    (exCfg "s-p" "prov-a" 100) [] none [.text "a", .text "b"] "mid-stream failure"
    rfl rfl rfl rfl).2 rfl rfl
  simpa [streamLoop, transformChunk] using h

/-- C10: ContentSafetyGuardrail.checkInput is not deterministic.  The
harmful-content patterns are g-flagged regex objects stored on the rule
instance; RegExp.prototype.test advances their persistent lastIndex, so the
very same payload that is blocked on the first call is allowed on the
second.  The claim (determinism across identical calls) states the evident
intent — the specification lists the rate limiter as the only rule with
mutable cross-call state — so this is a defect of the code. -/
theorem C10_regex_state_bug :
    (contentSafetyCheckInput freshSafetyState "kill").1.action = .block ∧
    (contentSafetyCheckInput
        (contentSafetyCheckInput freshSafetyState "kill").2 "kill").1.action = .allow := by
  decide

/-- C7: a whitelisted payload short-circuits processInput: the call returns
allowed with a single synthetic whitelisted verdict, no rule is executed
(empty trace), and no blacklist verdict is recorded — the blacklist, while
configured, is never even consulted.  The per-pattern semantics (try the
pattern as a case-insensitive regex, fall back to case-insensitive substring
containment when it does not compile) is the jsTestPattern definition used
by isWhitelisted. -/
theorem C7_whitelist_short_circuit :
    ∀ (cfg : GuardrailConfig) (rules : List Rule) (content : String),
      cfg.enabled = true → isWhitelisted cfg content = true →
      processInputT cfg rules content =
        (⟨true, content, [whitelistVerdict content], false⟩, []) := by
  intro cfg rules content hen hwl
  simp [processInputT, hen, hwl]

/-- C7 witness: the payload matches both the whitelist pattern and the
blacklist pattern of c7cfg, a blocking rule is installed, and the call is
still allowed with exactly the synthetic whitelist verdict and an empty
execution trace. -/
theorem C7_witness :
    processInputT c7cfg [blockRule "probe"] "say hello world" =
      (⟨true, "say hello world", [whitelistVerdict "say hello world"], false⟩, []) :=
  C7_whitelist_short_circuit c7cfg [blockRule "probe"] "say hello world" rfl (by decide)

theorem applyVerdict_results (st : PipeState) (v : Verdict) :
    (applyVerdict st v).results = st.results ++ [v] := by
  simp only [applyVerdict]
  split
  any_goals rfl
  split <;> rfl

theorem applyVerdict_blocked_of_block (st : PipeState) (v : Verdict)
    (h : v.action = .block) : (applyVerdict st v).blocked = true := by
  simp [applyVerdict, h]

theorem applyVerdict_content_modify (st : PipeState) (v : Verdict) (mc : String)
    (ha : v.action = .modify) (hm : v.modifiedContent = some mc) :
    (applyVerdict st v).processedContent = mc := by
  simp [applyVerdict, ha, hm]

theorem applyVerdict_content_of_ne_modify (st : PipeState) (v : Verdict)
    (h : v.action ≠ .modify) : (applyVerdict st v).processedContent = st.processedContent := by
  simp only [applyVerdict]
  split
  any_goals rfl
  simp_all

theorem runRulesT_strict_block :
    ∀ (cfg : GuardrailConfig) (orig : String) (st : PipeState) (g : Rule)
      (gs : List Rule) (v : Verdict),
      cfg.strictMode = true → g.enabled = true →
      g.checkInput st.processedContent = .ok v → v.action = .block →
      (runRulesT cfg orig (g :: gs) st).2 = [(g.name, st.processedContent)] := by
  intro cfg orig st g gs v hsm hge hco hact
  have hb := applyVerdict_blocked_of_block st v hact
  simp [runRulesT, hge, hco, hb, hsm]

theorem runRulesT_trace_nonstrict :
    ∀ (cfg : GuardrailConfig) (orig : String) (gs : List Rule) (st : PipeState),
      cfg.strictMode = false →
      (runRulesT cfg orig gs st).2.map Prod.fst =
        (gs.filter (fun g => g.enabled)).map Rule.name := by
  intro cfg orig gs
  induction gs with
  | nil => intro st _; simp [runRulesT]
  | cons g gs ih =>
    intro st hsm
    by_cases hge : g.enabled
    · cases hco : g.checkInput st.processedContent with
      | ok v =>
        rcases hrec : runRulesT cfg orig gs (applyVerdict st v) with ⟨stf, tr⟩
        have htr := ih (applyVerdict st v) hsm
        rw [hrec] at htr
        simp [runRulesT, hge, hco, hsm, hrec, htr]
      | error e =>
        rcases hrec : runRulesT cfg orig gs st with ⟨stf, tr⟩
        have htr := ih st hsm
        rw [hrec] at htr
        simp [runRulesT, hge, hco, hsm, hrec, htr]
    · have hge2 : g.enabled = false := by simpa using hge
      simp [runRulesT, hge2, ih st hsm]

theorem runRulesT_results_len :
    ∀ (cfg : GuardrailConfig) (orig : String) (gs : List Rule) (st : PipeState),
      cfg.strictMode = false →
      (∀ g ∈ gs, ∀ c, ∃ v, g.checkInput c = .ok v) →
      (runRulesT cfg orig gs st).1.results.length =
        st.results.length + (gs.filter (fun g => g.enabled)).length := by
  intro cfg orig gs
  induction gs with
  | nil => intro st _ _; simp [runRulesT]
  | cons g gs ih =>
    intro st hsm hok
    have hrest : ∀ g2 ∈ gs, ∀ c, ∃ v2, g2.checkInput c = .ok v2 :=
      fun g2 hg2 c => hok g2 (by simp [hg2]) c
    by_cases hge : g.enabled
    · rcases hok g (by simp) st.processedContent with ⟨v, hco⟩
      have hlen := ih (applyVerdict st v) hsm hrest
      rcases hrec : runRulesT cfg orig gs (applyVerdict st v) with ⟨stf, tr⟩
      rw [hrec] at hlen
      have h2 : (applyVerdict st v).results.length = st.results.length + 1 := by
        rw [applyVerdict_results]; simp
      simp [runRulesT, hge, hco, hsm, hrec, List.filter_cons, hlen, h2]
      omega
    · have hge2 : g.enabled = false := by simpa using hge
      simp [runRulesT, hge2, ih st hsm hrest]

/-- C3: with strictMode enabled, a rule that returns a block verdict ends
the chain — its trace entry is the last one, so no lower-priority rule's
checkInput executes; with strictMode disabled every enabled rule's
checkInput executes regardless of earlier blocks (the trace lists exactly
the enabled rules, in order), and — when no rule throws — the verdict list
of processInput has exactly one entry per enabled rule plus the blacklist
entry when the content is blacklisted. -/
theorem C3_strict_and_lenient_execution :
    (∀ (cfg : GuardrailConfig) (orig : String) (st : PipeState) (g : Rule)
       (gs : List Rule) (v : Verdict),
       cfg.strictMode = true → g.enabled = true →
       g.checkInput st.processedContent = .ok v → v.action = .block →
       (runRulesT cfg orig (g :: gs) st).2 = [(g.name, st.processedContent)]) ∧
    (∀ (cfg : GuardrailConfig) (orig : String) (gs : List Rule) (st : PipeState),
       cfg.strictMode = false →
       (runRulesT cfg orig gs st).2.map Prod.fst =
         (gs.filter (fun g => g.enabled)).map Rule.name) ∧
    (∀ (cfg : GuardrailConfig) (rules : List Rule) (content : String),
       cfg.enabled = true → cfg.strictMode = false →
       isWhitelisted cfg content = false →
       (∀ g ∈ rules, ∀ c, ∃ v, g.checkInput c = .ok v) →
       (processInputT cfg rules content).1.results.length =
         (if isBlacklisted cfg content then 1 else 0) +
           (rules.filter (fun g => g.enabled)).length) := by
  refine ⟨runRulesT_strict_block, runRulesT_trace_nonstrict, ?_⟩
  intro cfg rules content hen hsm hwl hok
  rcases hrec : runRulesT cfg content rules
      ⟨if isBlacklisted cfg content then [blacklistVerdict content] else [],
       content, isBlacklisted cfg content, false⟩ with ⟨stf, tr⟩
  have hlen := runRulesT_results_len cfg content rules
    ⟨if isBlacklisted cfg content then [blacklistVerdict content] else [],
     content, isBlacklisted cfg content, false⟩ hsm hok
  rw [hrec] at hlen
  by_cases hbl : isBlacklisted cfg content <;>
    simp_all [processInputT, hen, hwl, hrec]

/-- C3 witness: the three parts instantiated: a strict pipeline stops right
after the blocking rule; a lenient pipeline's trace lists every enabled
rule even after a block; on a blacklisted payload with two clean rules the
verdict list has blacklist + one verdict per rule. -/
theorem C3_witness :
    ((runRulesT c3cfgStrict "x" (blockRule "b" :: [allowRule "a"])
        ⟨[], "x", false, false⟩).2 = [("b", "x")]) ∧
    ((runRulesT c3cfg "x" [blockRule "b", allowRule "a"]
        ⟨[], "x", false, false⟩).2.map Prod.fst = ["b", "a"]) ∧
    ((processInputT c3cfg [blockRule "b", allowRule "a"]
        "this has badword inside").1.results.length = 3) := by
  refine ⟨C3_strict_and_lenient_execution.1 c3cfgStrict "x" ⟨[], "x", false, false⟩
      (blockRule "b") [allowRule "a"] _ rfl rfl rfl rfl, ?_, ?_⟩
  · have h := C3_strict_and_lenient_execution.2.1 c3cfg "x"
      [blockRule "b", allowRule "a"] ⟨[], "x", false, false⟩ rfl
    simpa [blockRule, allowRule] using h
  · have h := C3_strict_and_lenient_execution.2.2 c3cfg
      [blockRule "b", allowRule "a"] "this has badword inside" rfl rfl (by decide)
      (by
        intro g hg c
        simp only [List.mem_cons, List.not_mem_nil, or_false] at hg
        rcases hg with rfl | rfl
        · exact ⟨_, rfl⟩
        · exact ⟨_, rfl⟩)
    simpa [blockRule, allowRule] using h

/-- C5 counterexample: one identity on the free tier issues paired
request/release calls at t = 0 and t = 12h, then a checkInput at t = 25h —
more than one day after the daily window began at t = 0.  The claim says the
daily token counter is reset on its own schedule, so the t = 25h call should
start a fresh token count (1 token for this payload).  The code tracks both
windows through the single shared lastReset field, which the t = 12h
minute-reset moved to 12h; at t = 25h only 13h have elapsed since then, so
the tokens keep accumulating: the entry holds 3 tokens, one per call. -/
theorem C5_counterexample :
    c5v3.action = .allow ∧ c5s5 "user-1" = some ⟨1, 3, 90000000, 1⟩ :=
  ⟨by decide, by decide⟩

/-- C5 (amended): both resets are driven by the one shared windowStart
(lastReset).  On a checkInput at least one minute but less than one day
after windowStart, requestCount is reset (the stored count is 1 on an
accepted request, 0 on a rejected one), windowStart is set to now, and
tokenCount is not reset, only grown.  tokenCount is reset only when at
least one full day has elapsed since that same shared windowStart; in
particular, whenever less than a day has passed since the last reset — as
is always the case for an identity issuing requests in every intervening
minute — the token count never shrinks. -/
theorem C5_amended_shared_window :
    ∀ (store : RLStore) (content : String) (uid : Option String) (tier : Tier)
      (now : ℕ) (entry : RateLimitEntry),
      store (effUserId uid) = some entry →
      ((60000 ≤ now - entry.lastReset → now - entry.lastReset < 86400000 →
        ∃ e2, (rlCheckInput store content uid tier now).2 (effUserId uid) = some e2 ∧
          e2.lastReset = now ∧
          e2.count = (if (rlCheckInput store content uid tier now).1.action = .allow
            then 1 else 0) ∧
          e2.tokens = entry.tokens +
            (if (rlCheckInput store content uid tier now).1.action = .allow
             then estimateTokens content else 0)) ∧
       (now - entry.lastReset < 86400000 →
        ∃ e2, (rlCheckInput store content uid tier now).2 (effUserId uid) = some e2 ∧
          entry.tokens ≤ e2.tokens)) := by
  intro store content uid tier now entry hentry
  have hget : ∀ (s : RLStore) (u : String) (e : RateLimitEntry),
      storeSet s u e u = some e := by
    intro s u e; simp [storeSet]
  constructor
  · intro hmin hday
    have hday2 : ¬ (86400000 ≤ now - entry.lastReset) := by omega
    simp only [rlCheckInput, hentry, Option.getD_some, hmin, hday2, if_true, if_false]
    split
    · exact ⟨_, hget _ _ _, rfl, by simp [rlBlockVerdict], by simp [rlBlockVerdict]⟩
    · split
      · exact ⟨_, hget _ _ _, rfl, by simp [rlBlockVerdict], by simp [rlBlockVerdict]⟩
      · split
        · exact ⟨_, hget _ _ _, rfl, by simp [rlBlockVerdict], by simp [rlBlockVerdict]⟩
        · exact ⟨_, hget _ _ _, rfl, by simp [rlAllowVerdict], by simp [rlAllowVerdict]⟩
  · intro hday
    have hday2 : ¬ (86400000 ≤ now - entry.lastReset) := by omega
    by_cases hmin : 60000 ≤ now - entry.lastReset
    · simp only [rlCheckInput, hentry, Option.getD_some, hmin, hday2, if_true, if_false]
      split
      · exact ⟨_, hget _ _ _, le_refl _⟩
      · split
        · exact ⟨_, hget _ _ _, le_refl _⟩
        · split
          · exact ⟨_, hget _ _ _, le_refl _⟩
          · exact ⟨_, hget _ _ _, Nat.le_add_right _ _⟩
    · simp only [rlCheckInput, hentry, Option.getD_some, hmin, hday2, if_true, if_false]
      split
      · exact ⟨_, hget _ _ _, le_refl _⟩
      · split
        · exact ⟨_, hget _ _ _, le_refl _⟩
        · split
          · exact ⟨_, hget _ _ _, le_refl _⟩
          · exact ⟨_, hget _ _ _, Nat.le_add_right _ _⟩

/-- C5 witness: the amended statement instantiated at the t = 12h call of
the counterexample run: the minute window has elapsed (12h ≥ 1min) but not
the day window, so the request counter is reset, windowStart moves to 12h,
and the token counter keeps its accumulated value plus the new estimate. -/
theorem C5_amended_witness :
    (60000 ≤ 43200000 - 0 → 43200000 - 0 < 86400000 →
      ∃ e2, (rlCheckInput c5s2 "aaaa" c5u .free 43200000).2 (effUserId c5u) = some e2 ∧
        e2.lastReset = 43200000 ∧
        e2.count = (if (rlCheckInput c5s2 "aaaa" c5u .free 43200000).1.action = .allow
          then 1 else 0) ∧
        e2.tokens = 1 +
          (if (rlCheckInput c5s2 "aaaa" c5u .free 43200000).1.action = .allow
           then estimateTokens "aaaa" else 0)) ∧
    (43200000 - 0 < 86400000 →
      ∃ e2, (rlCheckInput c5s2 "aaaa" c5u .free 43200000).2 (effUserId c5u) = some e2 ∧
        1 ≤ e2.tokens) :=
  C5_amended_shared_window c5s2 "aaaa" c5u .free 43200000 ⟨1, 1, 0, 0⟩ (by decide)

theorem rl_concurrent_pos (tier : Tier) : 0 < (rlLimits tier).concurrentRequests := by
  cases tier <;> decide

theorem rl_perMinute_pos (tier : Tier) : 0 < (rlLimits tier).requestsPerMinute := by
  cases tier <;> decide

/-- One accepted request/release pair from the in-window invariant state:
the verdict is allow and the entry advances to k+1 requests and (k+1)
estimates worth of tokens, with the window start unchanged and no
concurrent slot held. -/
theorem rlPair_step (tier : Tier) (content : String) (uid : Option String)
    (store : RLStore) (k t0 t : ℕ)
    (hentry : store (effUserId uid) = some ⟨k, k * estimateTokens content, t0, 0⟩)
    (ht0 : t0 ≤ t) (ht : t < t0 + 60000)
    (hcount : k < (rlLimits tier).requestsPerMinute)
    (htok : (k + 1) * estimateTokens content ≤ (rlLimits tier).tokensPerDay) :
    (rlPair store content uid tier t).1.action = .allow ∧
    (rlPair store content uid tier t).2 (effUserId uid) =
      some ⟨k + 1, (k + 1) * estimateTokens content, t0, 0⟩ := by
  have hmin : ¬ (60000 ≤ t - t0) := by omega
  have hday : ¬ (86400000 ≤ t - t0) := by omega
  have hconc : ¬ ((rlLimits tier).concurrentRequests ≤ 0) := by
    have := rl_concurrent_pos tier; omega
  have hcount2 : ¬ ((rlLimits tier).requestsPerMinute ≤ k) := by omega
  have htok2 : ¬ ((rlLimits tier).tokensPerDay <
      k * estimateTokens content + estimateTokens content) := by
    have : k * estimateTokens content + estimateTokens content =
        (k + 1) * estimateTokens content := by ring
    omega
  have hmul : k * estimateTokens content + estimateTokens content =
      (k + 1) * estimateTokens content := by ring
  simp only [rlPair, rlCheckInput, hentry, Option.getD_some, hmin, hday, if_true,
    if_false, hconc, hcount2, htok2, ite_false, ite_true, rlAllowVerdict]
  constructor
  · trivial
  · simp [rlCheckOutput, storeSet, hmul]

/-- Iterating accepted pairs through a single minute window preserves the
invariant and yields only allow verdicts. -/
theorem rlRunPairs_window (tier : Tier) (content : String) (uid : Option String) :
    ∀ (ts : List ℕ) (t0 : ℕ) (store : RLStore) (k : ℕ),
      store (effUserId uid) = some ⟨k, k * estimateTokens content, t0, 0⟩ →
      (∀ t ∈ ts, t0 ≤ t ∧ t < t0 + 60000) →
      k + ts.length ≤ (rlLimits tier).requestsPerMinute →
      (k + ts.length) * estimateTokens content ≤ (rlLimits tier).tokensPerDay →
      (∀ v ∈ (rlRunPairs store content uid tier ts).1, v.action = .allow) ∧
      (rlRunPairs store content uid tier ts).2 (effUserId uid) =
        some ⟨k + ts.length, (k + ts.length) * estimateTokens content, t0, 0⟩ := by
  intro ts
  induction ts with
  | nil =>
    intro t0 store k hentry _ _ _
    simpa [rlRunPairs] using hentry
  | cons t ts ih =>
    intro t0 store k hentry hts hcount htok
    have htw := hts t (by simp)
    have hstep := rlPair_step tier content uid store k t0 t hentry htw.1 htw.2
      (by simp at hcount; omega)
      (by
        have hmono : (k + 1) * estimateTokens content ≤
            (k + (ts.length + 1)) * estimateTokens content :=
          Nat.mul_le_mul_right _ (by omega)
        simp at htok
        omega)
    rcases hpair : rlPair store content uid tier t with ⟨v, s2⟩
    rw [hpair] at hstep
    have hrest := ih t0 s2 (k + 1) hstep.2 (fun t2 ht2 => hts t2 (by simp [ht2]))
      (by simp at hcount ⊢; omega)
      (by
        have : k + 1 + ts.length = k + (ts.length + 1) := by omega
        rw [this]
        simpa using htok)
    rcases hrun : rlRunPairs s2 content uid tier ts with ⟨vs, s3⟩
    rw [hrun] at hrest
    constructor
    · intro v2 hv2
      simp only [rlRunPairs, hpair, hrun] at hv2
      simp at hv2
      rcases hv2 with rfl | hv2
      · exact hstep.1
      · exact hrest.1 v2 hv2
    · simp only [rlRunPairs, hpair, hrun]
      have : k + 1 + ts.length = k + (ts.length + 1) := by omega
      rw [this] at hrest
      simpa using hrest.2

/-- The very first request of an identity creates the entry with
windowStart = now and is accepted (provided the estimate fits the daily
budget). -/
theorem rlPair_first (tier : Tier) (content : String) (uid : Option String)
    (store : RLStore) (t0 : ℕ)
    (hnone : store (effUserId uid) = none)
    (htok : estimateTokens content ≤ (rlLimits tier).tokensPerDay) :
    (rlPair store content uid tier t0).1.action = .allow ∧
    (rlPair store content uid tier t0).2 (effUserId uid) =
      some ⟨1, estimateTokens content, t0, 0⟩ := by
  have hmin : ¬ (60000 ≤ t0 - t0) := by omega
  have hday : ¬ (86400000 ≤ t0 - t0) := by omega
  have hconc : ¬ ((rlLimits tier).concurrentRequests ≤ 0) := by
    have := rl_concurrent_pos tier; omega
  have hcount2 : ¬ ((rlLimits tier).requestsPerMinute ≤ 0) := by
    have := rl_perMinute_pos tier; omega
  have htok2 : ¬ ((rlLimits tier).tokensPerDay < 0 + estimateTokens content) := by omega
  simp only [rlPair, rlCheckInput, hnone, Option.getD_none, hmin, hday, if_true,
    if_false, hconc, hcount2, htok2, ite_false, ite_true, rlAllowVerdict]
  constructor
  · trivial
  · simp [rlCheckOutput, storeSet]

/-- C6: for every identity and tier, N accepted request/release pairs
within one minute (N = the tier's per-minute limit, with the daily token
budget covering N+1 requests) make the (N+1)-th checkInput of that minute
return a block verdict whose reason quotes the per-minute limit, while a
request issued once the minute window has elapsed is allowed again. -/
theorem C6_per_minute_limit :
    ∀ (tier : Tier) (uid : Option String) (content : String) (t0 : ℕ)
      (ts : List ℕ) (tB tA : ℕ) (store : RLStore),
      store (effUserId uid) = none →
      ts.length + 1 = (rlLimits tier).requestsPerMinute →
      (∀ t ∈ ts, t0 ≤ t ∧ t < t0 + 60000) →
      t0 ≤ tB → tB < t0 + 60000 → t0 + 60000 ≤ tA →
      ((rlLimits tier).requestsPerMinute + 1) * estimateTokens content ≤
        (rlLimits tier).tokensPerDay →
      (∀ v ∈ (rlRunPairs store content uid tier (t0 :: ts)).1, v.action = .allow) ∧
      (rlCheckInput (rlRunPairs store content uid tier (t0 :: ts)).2
          content uid tier tB).1 =
        rlBlockVerdict ("Rate limit exceeded. Limit: " ++
          toString (rlLimits tier).requestsPerMinute ++ " requests per minute")
          content ∧
      (rlCheckInput
          (rlCheckInput (rlRunPairs store content uid tier (t0 :: ts)).2
            content uid tier tB).2 content uid tier tA).1.action = .allow := by
  intro tier uid content t0 ts tB tA store hnone hN hts htB1 htB2 htA hbudget
  set N := (rlLimits tier).requestsPerMinute with hNdef
  set est := estimateTokens content with hest
  have hestN : N * est ≤ (rlLimits tier).tokensPerDay := by
    have : N * est ≤ (N + 1) * est := Nat.mul_le_mul_right _ (by omega)
    omega
  have hfirst := rlPair_first tier content uid store t0 hnone
    (by
      have : 1 * est ≤ (N + 1) * est := Nat.mul_le_mul_right _ (by
        have := rl_perMinute_pos tier; omega)
      simp at this
      omega)
  rcases hpair : rlPair store content uid tier t0 with ⟨v0, s1⟩
  rw [hpair] at hfirst
  have hrun := rlRunPairs_window tier content uid ts t0 s1 1
    (by simpa using hfirst.2) hts (by omega) (by rw [show 1 + ts.length = N by omega]; exact hestN)
  rcases hrunp : rlRunPairs s1 content uid tier ts with ⟨vs, s2⟩
  rw [hrunp] at hrun
  have hs2 : s2 (effUserId uid) = some ⟨N, N * est, t0, 0⟩ := by
    have : 1 + ts.length = N := by omega
    rw [this] at hrun
    exact hrun.2
  -- the (N+1)-th in-window request is blocked with the per-minute reason
  have hmin : ¬ (60000 ≤ tB - t0) := by omega
  have hday : ¬ (86400000 ≤ tB - t0) := by omega
  have hconc : ¬ ((rlLimits tier).concurrentRequests ≤ 0) := by
    have := rl_concurrent_pos tier; omega
  have hcountB : N ≤ N := le_refl N
  have hblock : (rlCheckInput s2 content uid tier tB).1 =
      rlBlockVerdict ("Rate limit exceeded. Limit: " ++ toString N ++
        " requests per minute") content ∧
      (rlCheckInput s2 content uid tier tB).2 (effUserId uid) =
        some ⟨N, N * est, t0, 0⟩ := by
    simp only [rlCheckInput, hs2, Option.getD_some, hmin, hday, if_true, if_false,
      hconc, hcountB, ite_true, ite_false]
    constructor
    · trivial
    · simp [storeSet]
  -- after the window elapses the next request is allowed again
  have hallow : (rlCheckInput ((rlCheckInput s2 content uid tier tB).2)
      content uid tier tA).1.action = .allow := by
    rcases hB : rlCheckInput s2 content uid tier tB with ⟨vB, sB⟩
    have hsB : sB (effUserId uid) = some ⟨N, N * est, t0, 0⟩ := by
      have h2 := hblock.2
      rw [hB] at h2
      exact h2
    have hminA : 60000 ≤ tA - t0 := by omega
    have hcountA : ¬ (N ≤ 0) := by have := rl_perMinute_pos tier; omega
    by_cases hdayA : 86400000 ≤ tA - t0
    · have htokA : ¬ ((rlLimits tier).tokensPerDay < 0 + est) := by
        have : 1 * est ≤ (N + 1) * est := Nat.mul_le_mul_right _ (by omega)
        simp at this
        omega
      simp only [rlCheckInput, hsB, Option.getD_some, hminA, hdayA, if_true,
        hconc, hcountA, htokA, ite_true, ite_false, rlAllowVerdict]
    · have htokA : ¬ ((rlLimits tier).tokensPerDay < N * est + est) := by
        have : N * est + est = (N + 1) * est := by ring
        omega
      simp only [rlCheckInput, hsB, Option.getD_some, hminA, hdayA, if_true,
        if_false, hconc, hcountA, htokA, ite_true, ite_false, rlAllowVerdict]
  refine ⟨?_, ?_, ?_⟩
  · intro v2 hv2
    simp only [rlRunPairs, hpair, hrunp] at hv2
    simp at hv2
    rcases hv2 with rfl | hv2
    · exact hfirst.1
    · exact hrun.1 v2 hv2
  · simp only [rlRunPairs, hpair, hrunp]
    exact hblock.1
  · simp only [rlRunPairs, hpair, hrunp]
    exact hallow

/-- C6 witness: on the free tier (10 requests per minute), ten accepted
pairs in the first minute, a blocked 11th request at t = 10ms with the
quoted reason, and an allowed request at t = 60000ms. -/
theorem C6_witness :
    (∀ v ∈ (rlRunPairs (fun _ => none) "hi" (some "w6") .free
        (0 :: [1, 2, 3, 4, 5, 6, 7, 8, 9])).1, v.action = .allow) ∧
    (rlCheckInput (rlRunPairs (fun _ => none) "hi" (some "w6") .free
        (0 :: [1, 2, 3, 4, 5, 6, 7, 8, 9])).2 "hi" (some "w6") .free 10).1 =
      rlBlockVerdict ("Rate limit exceeded. Limit: " ++ toString
        (rlLimits .free).requestsPerMinute ++ " requests per minute") "hi" ∧
    (rlCheckInput
        (rlCheckInput (rlRunPairs (fun _ => none) "hi" (some "w6") .free
          (0 :: [1, 2, 3, 4, 5, 6, 7, 8, 9])).2 "hi" (some "w6") .free 10).2
        "hi" (some "w6") .free 60000).1.action = .allow :=
  C6_per_minute_limit .free (some "w6") "hi" 0 [1, 2, 3, 4, 5, 6, 7, 8, 9]
    10 60000 (fun _ => none) rfl (by decide) (by decide) (by decide) (by decide)
    (by decide) (by decide)

theorem starClsRun_suffix (p : Char → Bool) :
    ∀ (s : List Char) (pc : Option Char)
      (k : Option Char → List Char → Option (List Char)) (r : List Char),
      starClsRun p pc s k = some r →
      (∀ pc2 s2, k pc2 s2 = some r → r <:+ s2) → r <:+ s := by
  intro s
  induction s with
  | nil => intro pc k r h hk; exact hk pc [] h
  | cons c rest ih =>
    intro pc k r h hk
    simp only [starClsRun] at h
    by_cases hp : p c
    · rw [if_pos hp] at h
      cases hrec : starClsRun p (some c) rest k with
      | some r2 =>
        rw [hrec] at h
        obtain rfl : r2 = r := by injection h
        exact (ih (some c) k r2 hrec hk).trans (List.suffix_cons c rest)
      | none =>
        rw [hrec] at h
        exact hk pc (c :: rest) h
    · rw [if_neg hp] at h
      exact hk pc (c :: rest) h

theorem mrun_suffix :
    ∀ (re : RE) (pc : Option Char) (s : List Char)
      (k : Option Char → List Char → Option (List Char)) (r : List Char),
      mrun re pc s k = some r →
      (∀ pc2 s2, k pc2 s2 = some r → r <:+ s2) → r <:+ s := by
  intro re
  induction re with
  | emp => intro pc s k r h hk; exact hk pc s h
  | wordB =>
    intro pc s k r h hk
    simp only [mrun] at h
    split at h
    · exact hk pc s h
    · simp at h
  | cls p =>
    intro pc s k r h hk
    cases s with
    | nil => simp only [mrun] at h; simp at h
    | cons c rest =>
      simp only [mrun] at h
      split at h
      · exact (hk (some c) rest h).trans (List.suffix_cons c rest)
      · simp at h
  | seq a b iha ihb =>
    intro pc s k r h hk
    simp only [mrun] at h
    exact iha pc s _ r h (fun pc2 s2 h2 => ihb pc2 s2 k r h2 hk)
  | alt a b iha ihb =>
    intro pc s k r h hk
    simp only [mrun] at h
    cases hma : mrun a pc s k with
    | some r2 =>
      rw [hma] at h
      obtain rfl : r2 = r := by injection h
      exact iha pc s k r2 hma hk
    | none =>
      rw [hma] at h
      exact ihb pc s k r h hk
  | opt a iha =>
    intro pc s k r h hk
    simp only [mrun] at h
    cases hma : mrun a pc s k with
    | some r2 =>
      rw [hma] at h
      obtain rfl : r2 = r := by injection h
      exact iha pc s k r2 hma hk
    | none =>
      rw [hma] at h
      exact hk pc s h
  | starCls p =>
    intro pc s k r h hk
    exact starClsRun_suffix p s pc k r h hk

theorem starClsRun_cnt (p : Char → Bool) (hp : p '[' = false) :
    ∀ (s : List Char) (pc : Option Char)
      (k : Option Char → List Char → Option (List Char)) (r : List Char) (C : ℕ),
      starClsRun p pc s k = some r →
      (∀ pc2 s2, k pc2 s2 = some r → s2.count '[' = C) → s.count '[' = C := by
  intro s
  induction s with
  | nil => intro pc k r C h hk; exact hk pc [] h
  | cons c rest ih =>
    intro pc k r C h hk
    simp only [starClsRun] at h
    by_cases hpc : p c
    · have hc : c ≠ '[' := by
        intro hceq; rw [hceq, hp] at hpc; cases hpc
      rw [if_pos hpc] at h
      cases hrec : starClsRun p (some c) rest k with
      | some r2 =>
        rw [hrec] at h
        obtain rfl : r2 = r := by injection h
        have hrest := ih (some c) k r2 C hrec hk
        simp [List.count_cons, beq_iff_eq, hc, hrest]
      | none =>
        rw [hrec] at h
        exact hk pc (c :: rest) h
    · rw [if_neg hpc] at h
      exact hk pc (c :: rest) h

theorem mrun_cnt :
    ∀ (re : RE) (pc : Option Char) (s : List Char)
      (k : Option Char → List Char → Option (List Char)) (r : List Char) (C : ℕ),
      re.noBrB = true → mrun re pc s k = some r →
      (∀ pc2 s2, k pc2 s2 = some r → s2.count '[' = C) → s.count '[' = C := by
  intro re
  induction re with
  | emp => intro pc s k r C _ h hk; exact hk pc s h
  | wordB =>
    intro pc s k r C _ h hk
    simp only [mrun] at h
    split at h
    · exact hk pc s h
    · simp at h
  | cls p =>
    intro pc s k r C hbr h hk
    cases s with
    | nil => simp only [mrun] at h; simp at h
    | cons c rest =>
      simp only [mrun] at h
      have hp : p '[' = false := by simpa [RE.noBrB] using hbr
      split at h
      · rename_i hpc
        have hc : c ≠ '[' := by
          intro hceq; rw [hceq, hp] at hpc; cases hpc
        have hrest := hk (some c) rest h
        simp [List.count_cons, beq_iff_eq, hc, hrest]
      · simp at h
  | seq a b iha ihb =>
    intro pc s k r C hbr h hk
    simp only [mrun] at h
    have hbr2 : a.noBrB = true ∧ b.noBrB = true := by
      simpa [RE.noBrB, Bool.and_eq_true] using hbr
    exact iha pc s _ r C hbr2.1 h (fun pc2 s2 h2 => ihb pc2 s2 k r C hbr2.2 h2 hk)
  | alt a b iha ihb =>
    intro pc s k r C hbr h hk
    simp only [mrun] at h
    have hbr2 : a.noBrB = true ∧ b.noBrB = true := by
      simpa [RE.noBrB, Bool.and_eq_true] using hbr
    cases hma : mrun a pc s k with
    | some r2 =>
      rw [hma] at h
      obtain rfl : r2 = r := by injection h
      exact iha pc s k r2 C hbr2.1 hma hk
    | none =>
      rw [hma] at h
      exact ihb pc s k r C hbr2.2 h hk
  | opt a iha =>
    intro pc s k r C hbr h hk
    simp only [mrun] at h
    have hbr2 : a.noBrB = true := by simpa [RE.noBrB] using hbr
    cases hma : mrun a pc s k with
    | some r2 =>
      rw [hma] at h
      obtain rfl : r2 = r := by injection h
      exact iha pc s k r2 C hbr2 hma hk
    | none =>
      rw [hma] at h
      exact hk pc s h
  | starCls p =>
    intro pc s k r C hbr h hk
    have hp : p '[' = false := by simpa [RE.noBrB] using hbr
    exact starClsRun_cnt p hp s pc k r C h hk

theorem mrun_base_suffix (re : RE) (pc : Option Char) (s rem : List Char)
    (h : mrun re pc s (fun _ r => some r) = some rem) : rem <:+ s :=
  mrun_suffix re pc s _ rem h (fun _ s2 h2 => by
    obtain rfl : s2 = rem := by injection h2
    exact List.suffix_refl _)

theorem mrun_base_cnt (re : RE) (hbr : re.noBrB = true) (pc : Option Char)
    (s rem : List Char) (h : mrun re pc s (fun _ r => some r) = some rem) :
    s.count '[' = rem.count '[' :=
  mrun_cnt re pc s _ rem (rem.count '[') hbr h (fun _ s2 h2 => by
    obtain rfl : s2 = rem := by injection h2
    rfl)

theorem mrun_bcls (p : Char → Bool) (rest : RE) :
    ∀ (pc : Option Char) (s : List Char)
      (k : Option Char → List Char → Option (List Char)) (r : List Char),
      mrun (RE.seq RE.wordB (RE.seq (RE.cls p) rest)) pc s k = some r →
      ∃ c cs, s = c :: cs ∧ p c = true ∧ mrun rest (some c) cs k = some r := by
  intro pc s k r h
  cases s with
  | nil =>
    simp only [mrun] at h
    split at h <;> simp at h
  | cons c cs =>
    simp only [mrun] at h
    split at h
    · split at h
      · rename_i hpc
        exact ⟨c, cs, rfl, hpc, h⟩
      · simp at h
    · simp at h

/-- The generic shape of every sensitive pattern: a word boundary followed
by a mandatory head class whose members exclude the opening bracket. -/
theorem goodM_of_shape (p : Char → Bool) (rest : RE) (hp : p '[' = false)
    (hbr : (RE.seq RE.wordB (RE.seq (RE.cls p) rest)).noBrB = true) :
    SensSpanOk (matchLenAt (RE.seq RE.wordB (RE.seq (RE.cls p) rest))) := by
  refine ⟨?_, ?_, ?_⟩
  · intro pc
    cases hm : mrun (RE.seq RE.wordB (RE.seq (RE.cls p) rest)) pc []
        (fun _ r => some r) with
    | some rem =>
      rcases mrun_bcls p rest pc [] _ rem hm with ⟨c, cs, hcs, _, _⟩
      cases hcs
    | none => simp [matchLenAt, hm]
  · intro pc c cs n h
    cases hm2 : mrun (RE.seq RE.wordB (RE.seq (RE.cls p) rest)) pc (c :: cs)
        (fun _ r => some r) with
    | none => simp [matchLenAt, hm2] at h
    | some rem =>
      rcases mrun_bcls p rest pc (c :: cs) _ rem hm2 with ⟨c2, cs2, hcs, hpc, hrest⟩
      injection hcs with h1 h2
      subst h1
      subst h2
      have hsuf : rem <:+ cs := mrun_base_suffix rest (some c) cs rem hrest
      have hlen : rem.length ≤ cs.length := hsuf.length_le
      have hn : n = (c :: cs).length - rem.length := by
        simp only [matchLenAt, hm2] at h
        injection h with h2
        omega
      constructor
      · simp at hn; omega
      · intro hceq
        rw [hceq, hp] at hpc
        cases hpc
  · intro pc s n h
    cases hm2 : mrun (RE.seq RE.wordB (RE.seq (RE.cls p) rest)) pc s
        (fun _ r => some r) with
    | none => simp [matchLenAt, hm2] at h
    | some rem =>
      have hn : n = s.length - rem.length := by
        simp only [matchLenAt, hm2] at h
        injection h with h2
        omega
      have hsuf : rem <:+ s :=
        mrun_base_suffix (RE.seq RE.wordB (RE.seq (RE.cls p) rest)) pc s rem hm2
      have hcnt : s.count '[' = rem.count '[' :=
        mrun_base_cnt (RE.seq RE.wordB (RE.seq (RE.cls p) rest)) hbr pc s rem hm2
      rcases hsuf with ⟨t, rfl⟩
      have hnt : n = t.length := by
        simp at hn
        omega
      subst hnt
      rw [List.drop_left]
      omega

theorem ssn_good : SensSpanOk (matchLenAt ssnRE) :=
  goodM_of_shape digitC _ rfl rfl

theorem cc_good : SensSpanOk (matchLenAt ccRE) :=
  goodM_of_shape digitC _ rfl rfl

theorem email_good : SensSpanOk (matchLenAt emailRE) :=
  goodM_of_shape localC _ rfl rfl

theorem phone_good : SensSpanOk (matchLenAt phoneRE) :=
  goodM_of_shape digitC _ rfl rfl

/-- A global replace never loses opening brackets: matched spans carry
none, and each replacement inserts the marker. -/
theorem replaceScan_cnt_ge (M : Option Char → List Char → Option ℕ)
    (R : List Char) (hM : SensSpanOk M) :
    ∀ (n : ℕ) (s : List Char) (pc : Option Char),
      s.count '[' ≤ (replaceScan M R n pc s).count '[' := by
  intro n
  induction n with
  | zero => intro s pc; simp [replaceScan]
  | succ n ih =>
    intro s pc
    cases s with
    | nil => simp [replaceScan]
    | cons c rest =>
      rw [replaceScan]
      cases hm : M pc (c :: rest) with
      | none =>
        simp only [hm]
        have := ih rest (some c)
        simp [List.count_cons]
        omega
      | some kk =>
        cases kk with
        | zero =>
          simp only [hm]
          have := ih rest (some c)
          simp [List.count_cons]
          omega
        | succ k =>
          simp only [hm]
          have hdc := hM.2.2 pc (c :: rest) (k + 1) hm
          have hrec := ih ((c :: rest).drop (k + 1))
            (((c :: rest).take (k + 1)).getLast?)
          rw [List.count_append]
          omega

/-- If the scan ahead of the current position contains a match, a global
replace strictly increases the opening-bracket count. -/
theorem replaceScan_cnt_succ (M : Option Char → List Char → Option ℕ)
    (R : List Char) (hM : SensSpanOk M) (hR : 1 ≤ R.count '[') :
    ∀ (n : ℕ) (s : List Char) (pc : Option Char) (pos : ℕ) (z : ℕ × ℕ),
      s.length ≤ n → findMatchAux M pc s pos = some z →
      s.count '[' + 1 ≤ (replaceScan M R n pc s).count '[' := by
  intro n
  induction n with
  | zero =>
    intro s pc pos z hlen hfind
    have hnil : s = [] := List.eq_nil_of_length_eq_zero (by omega)
    subst hnil
    rw [findMatchAux, hM.1 pc] at hfind
    simp at hfind
  | succ n ih =>
    intro s pc pos z hlen hfind
    cases s with
    | nil =>
      rw [findMatchAux, hM.1 pc] at hfind
      simp at hfind
    | cons c rest =>
      rw [replaceScan]
      cases hm : M pc (c :: rest) with
      | none =>
        rw [findMatchAux, hm] at hfind
        have hlen2 : rest.length ≤ n := by
          simp only [List.length_cons] at hlen
          omega
        have hrec := ih rest (some c) (pos + 1) z hlen2 hfind
        simp only [hm, List.count_cons]
        omega
      | some kk =>
        cases kk with
        | zero => exact absurd (hM.2.1 pc c rest 0 hm).1 (by omega)
        | succ k =>
          simp only [hm]
          have hdc := hM.2.2 pc (c :: rest) (k + 1) hm
          have hge := replaceScan_cnt_ge M R hM n ((c :: rest).drop (k + 1))
            (((c :: rest).take (k + 1)).getLast?)
          rw [List.count_append]
          omega

theorem getLast?_or_shift (c : Char) (t : List Char) (pc : Option Char) :
    ((c :: t).getLast?).or pc = (t.getLast?).or (some c) := by
  cases t with
  | nil => simp
  | cons d t2 =>
    rw [List.getLast?_cons_cons]
    cases hgl : (d :: t2).getLast? with
    | none => simp at hgl
    | some x => simp

/-- Extending the scanned suffix to the left preserves the existence of a
match (the scan tries the added positions first and falls through). -/
theorem findMatchAux_append (M : Option Char → List Char → Option ℕ) :
    ∀ (t : List Char) (pc : Option Char) (s2 : List Char) (pos : ℕ) (z : ℕ × ℕ),
      findMatchAux M ((t.getLast?).or pc) s2 (pos + t.length) = some z →
      ∃ z2, findMatchAux M pc (t ++ s2) pos = some z2 := by
  intro t
  induction t with
  | nil => intro pc s2 pos z h; exact ⟨z, by simpa using h⟩
  | cons c t ih =>
    intro pc s2 pos z h
    rw [List.cons_append, findMatchAux]
    cases hm : M pc (c :: (t ++ s2)) with
    | some k => exact ⟨(pos, pos + k), rfl⟩
    | none =>
      have h2 : findMatchAux M ((t.getLast?).or (some c)) s2 ((pos + 1) + t.length) =
          some z := by
        rw [← getLast?_or_shift c t pc]
        have harith : pos + 1 + t.length = pos + (c :: t).length := by simp; omega
        rw [harith]
        exact h
      exact ih (some c) s2 (pos + 1) z h2

/-- A successful g-flagged test (from any lastIndex) implies the plain
scan-from-zero also finds a match. -/
theorem gTest_true_scan0 (M : Option Char → List Char → Option ℕ)
    (hM : SensSpanOk M) (s : List Char) (li : ℕ)
    (h : (gTest M s li).1 = true) :
    ∃ z, findMatchAux M none s 0 = some z := by
  unfold gTest at h
  cases hf : findFrom M s li with
  | none => rw [hf] at h; simp at h
  | some ze =>
    unfold findFrom at hf
    by_cases hli : li ≤ s.length
    · have hsplit : s.take li ++ s.drop li = s := List.take_append_drop li s
      have hprev : prevCharAt s li = ((s.take li).getLast?).or none := by
        unfold prevCharAt
        by_cases h0 : li = 0
        · simp [h0]
        · have hlen : (s.take li).length = li := by
            rw [List.length_take]; omega
          have hgl : (s.take li).getLast? = s[li - 1]? := by
            rw [List.getLast?_eq_getElem?, hlen, List.getElem?_take, if_pos (by omega)]
          rw [if_neg h0, hgl, Option.or_none]
      rw [hprev] at hf
      have hf2 : findMatchAux M (((s.take li).getLast?).or none) (s.drop li)
          (0 + (s.take li).length) = some ze := by
        have hlen : (s.take li).length = li := by rw [List.length_take]; omega
        rw [hlen]
        simpa using hf
      rcases findMatchAux_append M (s.take li) none (s.drop li) 0 ze hf2 with ⟨z2, hz2⟩
      rw [hsplit] at hz2
      exact ⟨z2, hz2⟩
    · exfalso
      have hdrop : s.drop li = [] := by
        rw [List.drop_eq_nil_iff]
        omega
      rw [hdrop, findMatchAux, hM.1] at hf
      simp at hf

/-- A true g-test against a string implies the global replace on that same
string strictly increases the bracket count. -/
theorem gTest_replaceAll_succ (M : Option Char → List Char → Option ℕ)
    (hM : SensSpanOk M) (s : List Char) (li : ℕ)
    (h : (gTest M s li).1 = true) :
    s.count '[' + 1 ≤ (replaceAll M redactedMarker s).count '[' := by
  rcases gTest_true_scan0 M hM s li h with ⟨z, hz⟩
  exact replaceScan_cnt_succ M redactedMarker hM (by decide) s.length s none 0 z
    (le_refl _) hz

/-- The sensitive-information loop never loses bracket count, and strictly
gains one when some pattern's test fires while the working copy still
equals the tested content. -/
theorem redactLoop_cnt :
    ∀ (pats : List RE) (idxs : List ℕ) (content modified : List Char),
      (∀ p ∈ pats, SensSpanOk (matchLenAt p)) →
      (modified.count '[' ≤ (redactLoop pats idxs content modified).1.count '[') ∧
      ((redactLoop pats idxs content modified).2.1 = true → modified = content →
        content.count '[' + 1 ≤ (redactLoop pats idxs content modified).1.count '[') := by
  intro pats
  induction pats with
  | nil =>
    intro idxs content modified _
    constructor
    · cases idxs <;> simp [redactLoop]
    · cases idxs <;> simp [redactLoop]
  | cons p ps ih =>
    intro idxs content modified hgood
    cases idxs with
    | nil => constructor <;> simp [redactLoop]
    | cons i is =>
      have hp : SensSpanOk (matchLenAt p) := hgood p (by simp)
      have hps : ∀ p2 ∈ ps, SensSpanOk (matchLenAt p2) :=
        fun p2 h2 => hgood p2 (by simp [h2])
      rcases hgt : gTest (matchLenAt p) content i with ⟨b, i2⟩
      rcases hrl : redactLoop ps is content
          (if b then replaceAll (matchLenAt p) redactedMarker modified else modified)
        with ⟨fin, has, is2⟩
      have ihm := ih is content
        (if b then replaceAll (matchLenAt p) redactedMarker modified else modified) hps
      rw [hrl] at ihm
      have hout : redactLoop (p :: ps) (i :: is) content modified =
          (fin, b || has, i2 :: is2) := by
        simp [redactLoop, hgt, hrl]
      rw [hout]
      constructor
      · cases b with
        | false => simpa using ihm.1
        | true =>
          have hge := replaceScan_cnt_ge (matchLenAt p) redactedMarker hp
            modified.length modified none
          simp only [if_true, ite_true] at ihm
          calc modified.count '['
              ≤ (replaceAll (matchLenAt p) redactedMarker modified).count '[' := hge
            _ ≤ fin.count '[' := ihm.1
      · intro hbh hmc
        subst hmc
        cases b with
        | false =>
          have hhas : has = true := by simpa using hbh
          simpa using ihm.2 hhas rfl
        | true =>
          have hgt1 : (gTest (matchLenAt p) modified i).1 = true := by
            rw [hgt]
          have hsucc := gTest_replaceAll_succ (matchLenAt p) hp modified i hgt1
          simp only [if_true, ite_true] at ihm
          calc modified.count '[' + 1
              ≤ (replaceAll (matchLenAt p) redactedMarker modified).count '[' := hsucc
            _ ≤ fin.count '[' := ihm.1

theorem sensitive_all_good : ∀ p ∈ sensitivePatterns, SensSpanOk (matchLenAt p) := by
  intro p hp
  simp only [sensitivePatterns, List.mem_cons, List.not_mem_nil, or_false] at hp
  rcases hp with rfl | rfl | rfl | rfl
  · exact ssn_good
  · exact cc_good
  · exact email_good
  · exact phone_good

/-- Whenever the content-safety rule returns a modify verdict, the rewritten
content differs from the original (the redaction inserted at least one
marker, which raises the bracket count). -/
theorem contentSafety_modify_ne :
    ∀ (st : SafetyState) (content : String) (v : Verdict) (st2 : SafetyState),
      contentSafetyCheckInput st content = (v, st2) → v.action = .modify →
      ∃ m, v.modifiedContent = some m ∧ m ≠ v.originalContent := by
  intro st content v st2 heq hact
  rcases hh : testHarmful harmfulPatterns st.harmIdx content.data with ⟨hb, harmIdx2⟩
  cases hb with
  | true =>
    rw [contentSafetyCheckInput.eq_def] at heq
    simp only [hh] at heq
    injection heq with h1 _
    rw [← h1] at hact
    simp at hact
  | false =>
    rcases hr : redactLoop sensitivePatterns st.sensIdx content.data content.data
      with ⟨fin, has, sensIdx2⟩
    cases has with
    | false =>
      rw [contentSafetyCheckInput.eq_def] at heq
      simp only [hh, hr] at heq
      injection heq with h1 _
      rw [← h1] at hact
      simp at hact
    | true =>
      rw [contentSafetyCheckInput.eq_def] at heq
      simp only [hh, hr] at heq
      injection heq with h1 _
      have hcnt := (redactLoop_cnt sensitivePatterns st.sensIdx content.data
        content.data sensitive_all_good).2
      rw [hr] at hcnt
      have hlt := hcnt rfl rfl
      have hlt2 : content.data.count '[' + 1 ≤ fin.count '[' := by simpa using hlt
      refine ⟨String.mk fin, ?_, ?_⟩
      · rw [← h1]
      · rw [← h1]
        intro hcontra
        have hdata : fin = content.data := congrArg String.data hcontra
        rw [hdata] at hlt2
        omega

/-- Rules that never modify leave the working content untouched: every
later trace entry sees the same content. -/
theorem runRulesT_content_stable :
    ∀ (cfg : GuardrailConfig) (orig : String) (gs : List Rule) (st : PipeState),
      (∀ g ∈ gs, ∀ c v, g.checkInput c = .ok v → v.action ≠ .modify) →
      ∀ e ∈ (runRulesT cfg orig gs st).2, e.2 = st.processedContent := by
  intro cfg orig gs
  induction gs with
  | nil => intro st _ e he; simp [runRulesT] at he
  | cons g gs ih =>
    intro st hnm e he
    have hnm2 : ∀ g2 ∈ gs, ∀ c v, g2.checkInput c = .ok v → v.action ≠ .modify :=
      fun g2 h2 => hnm g2 (by simp [h2])
    by_cases hge : g.enabled
    · cases hco : g.checkInput st.processedContent with
      | ok v =>
        have hvm : v.action ≠ .modify := hnm g (by simp) st.processedContent v hco
        have hcontent : (applyVerdict st v).processedContent = st.processedContent :=
          applyVerdict_content_of_ne_modify st v hvm
        rcases hrec : runRulesT cfg orig gs (applyVerdict st v) with ⟨stf, tr⟩
        by_cases hstop : ((applyVerdict st v).blocked && cfg.strictMode) = true
        · have hrun : runRulesT cfg orig (g :: gs) st =
              (applyVerdict st v, [(g.name, st.processedContent)]) := by
            simp [runRulesT, hge, hco, hstop]
          rw [hrun] at he
          have he2 : e = (g.name, st.processedContent) := by simpa using he
          simp [he2]
        · have hrun : runRulesT cfg orig (g :: gs) st =
              (stf, (g.name, st.processedContent) :: tr) := by
            simp [runRulesT, hge, hco, hstop, hrec]
          rw [hrun] at he
          rcases List.mem_cons.mp he with he2 | he2
          · simp [he2]
          · have := ih (applyVerdict st v) hnm2 e (by rw [hrec]; exact he2)
            rw [this, hcontent]
      | error msg =>
        rcases hrec : runRulesT cfg orig gs st with ⟨stf, tr⟩
        by_cases hsm : cfg.strictMode
        · have hrun : (runRulesT cfg orig (g :: gs) st).2 =
              [(g.name, st.processedContent)] := by
            simp [runRulesT, hge, hco, hsm]
          rw [hrun] at he
          have he2 : e = (g.name, st.processedContent) := by simpa using he
          simp [he2]
        · have hrun : (runRulesT cfg orig (g :: gs) st).2 =
              (g.name, st.processedContent) :: tr := by
            simp [runRulesT, hge, hco, hsm, hrec]
          rw [hrun] at he
          rcases List.mem_cons.mp he with he2 | he2
          · simp [he2]
          · exact ih st hnm2 e (by rw [hrec]; exact he2)
    · have hge2 : g.enabled = false := by simpa using hge
      exact ih st hnm2 e (by simpa [runRulesT, hge2] using he)

/-- After a rule returns a modify verdict, the rewritten content becomes
the working content: every rule executed afterwards (none of which modifies
in turn) is invoked on exactly that content. -/
theorem runRulesT_modify_chain :
    ∀ (cfg : GuardrailConfig) (orig : String) (st : PipeState) (g : Rule)
      (gs : List Rule) (v : Verdict) (mc : String),
      g.enabled = true → g.checkInput st.processedContent = .ok v →
      v.action = .modify → v.modifiedContent = some mc →
      (∀ g2 ∈ gs, ∀ c v2, g2.checkInput c = .ok v2 → v2.action ≠ .modify) →
      ∃ tr, (runRulesT cfg orig (g :: gs) st).2 =
          (g.name, st.processedContent) :: tr ∧ ∀ e ∈ tr, e.2 = mc := by
  intro cfg orig st g gs v mc hge hco hact hmc hnm
  have hcontent : (applyVerdict st v).processedContent = mc :=
    applyVerdict_content_modify st v mc hact hmc
  rcases hrec : runRulesT cfg orig gs (applyVerdict st v) with ⟨stf, tr⟩
  by_cases hstop : ((applyVerdict st v).blocked && cfg.strictMode) = true
  · refine ⟨[], ?_, by simp⟩
    simp [runRulesT, hge, hco, hstop]
  · refine ⟨tr, ?_, ?_⟩
    · simp [runRulesT, hge, hco, hstop, hrec]
    · intro e he
      have := runRulesT_content_stable cfg orig gs (applyVerdict st v) hnm e
        (by rw [hrec]; exact he)
      rw [this, hcontent]

/-- C4: within one processInput call, a modify verdict's modifiedContent
always differs from its originalContent (shown for the content-safety rule,
the one rule of the repository that produces modify verdicts), and the
middleware chains it: the rewritten content is the content every
subsequently executed rule is invoked on (none of the later rules modifies
in turn).  In particular the phone-number payload yields a modify verdict
whose content has the number replaced by the redaction marker. -/
theorem C4_modify_chain :
    (∀ (st : SafetyState) (content : String) (v : Verdict) (st2 : SafetyState),
       contentSafetyCheckInput st content = (v, st2) → v.action = .modify →
       ∃ m, v.modifiedContent = some m ∧ m ≠ v.originalContent) ∧
    (∀ (cfg : GuardrailConfig) (orig : String) (st : PipeState) (g : Rule)
       (gs : List Rule) (v : Verdict) (mc : String),
       g.enabled = true → g.checkInput st.processedContent = .ok v →
       v.action = .modify → v.modifiedContent = some mc →
       (∀ g2 ∈ gs, ∀ c v2, g2.checkInput c = .ok v2 → v2.action ≠ .modify) →
       ∃ tr, (runRulesT cfg orig (g :: gs) st).2 =
           (g.name, st.processedContent) :: tr ∧ ∀ e ∈ tr, e.2 = mc) ∧
    ((contentSafetyCheckInput freshSafetyState "call me at 555-123-4567").1.action
        = .modify ∧
     (contentSafetyCheckInput freshSafetyState "call me at 555-123-4567").1.modifiedContent
        = some "call me at [REDACTED]") :=
  ⟨contentSafety_modify_ne, runRulesT_modify_chain, by decide, by decide⟩

/-- C4 witness: the redaction scenario end to end — the phone payload gives
a modify verdict whose content differs from the original, and with the
content-safety rule at the head of a chain followed by a non-modifying
rule, the later rule is invoked on the redacted content. -/
theorem C4_witness :
    (∃ m, (contentSafetyCheckInput freshSafetyState
        "call me at 555-123-4567").1.modifiedContent = some m ∧
      m ≠ (contentSafetyCheckInput freshSafetyState
        "call me at 555-123-4567").1.originalContent) ∧
    (∃ tr, (runRulesT c3cfg "call me at 555-123-4567"
        (contentSafetyRule freshSafetyState :: [allowRule "after"])
        ⟨[], "call me at 555-123-4567", false, false⟩).2 =
        ("Content Safety", "call me at 555-123-4567") :: tr ∧
      ∀ e ∈ tr, e.2 = "call me at [REDACTED]") := by
  constructor
  · exact C4_modify_chain.1 freshSafetyState "call me at 555-123-4567" _ _ rfl
      (by decide)
  · refine C4_modify_chain.2.1 c3cfg "call me at 555-123-4567"
      ⟨[], "call me at 555-123-4567", false, false⟩
      (contentSafetyRule freshSafetyState) [allowRule "after"] _
      "call me at [REDACTED]" rfl rfl (by decide) (by decide) ?_
    intro g2 hg2 c v2 hv2
    simp only [List.mem_cons, List.not_mem_nil, or_false] at hg2
    subst hg2
    simp only [allowRule] at hv2
    injection hv2 with hv3
    rw [← hv3]
    simp

theorem jsSetDedupAux_congr :
    ∀ (l seen1 seen2 : List String), (∀ x, x ∈ seen1 ↔ x ∈ seen2) →
      jsSetDedupAux seen1 l = jsSetDedupAux seen2 l := by
  intro l
  induction l with
  | nil => intro s1 s2 _; simp [jsSetDedupAux]
  | cons x xs ih =>
    intro s1 s2 h
    by_cases hx : x ∈ s1
    · have hx2 : x ∈ s2 := (h x).mp hx
      simp [jsSetDedupAux, hx, hx2, ih s1 s2 h]
    · have hx2 : x ∉ s2 := fun hc => hx ((h x).mpr hc)
      simp only [jsSetDedupAux, if_neg hx, if_neg hx2]
      rw [ih (x :: s1) (x :: s2) (by intro y; simp [h y])]

theorem dedupFirst_aux :
    ∀ (l acc : List String),
      l.foldl (fun acc x => if x ∈ acc then acc else acc ++ [x]) acc =
        acc ++ jsSetDedupAux acc l := by
  intro l
  induction l with
  | nil => intro acc; simp [jsSetDedupAux]
  | cons x xs ih =>
    intro acc
    by_cases hx : x ∈ acc
    · simp only [List.foldl_cons, if_pos hx, jsSetDedupAux, ih acc]
    · simp only [List.foldl_cons, if_neg hx, jsSetDedupAux]
      rw [ih (acc ++ [x])]
      rw [jsSetDedupAux_congr xs (acc ++ [x]) (x :: acc) (by intro y; simp [or_comm])]
      simp

/-- The Set-based deduplication of the code agrees with the spec's
keep-the-first-occurrence formulation. -/
theorem jsSetDedup_eq_dedupFirst (l : List String) : jsSetDedup l = dedupFirst l := by
  rw [dedupFirst, dedupFirst_aux l []]
  simp [jsSetDedup]

theorem configsGet_mem (configs : List (String × ModelConfig)) (p : String)
    (pcfg : ModelConfig) (h : configsGet configs p = some pcfg) :
    (p, pcfg) ∈ configs := by
  unfold configsGet at h
  cases hf : configs.find? (fun e => e.1 == p) with
  | none => rw [hf] at h; simp at h
  | some pr =>
    rw [hf] at h
    have hmem := List.mem_of_find?_eq_some hf
    have hkey : pr.1 = p := by simpa using List.find?_some hf
    simp at h
    rcases pr with ⟨q, c⟩
    simp at hkey h
    rw [hkey, h] at hmem
    exact hmem

/-- C9: with fallback enabled and the preferred model present in the table,
the candidate list is the preferred model, then the configured explicit
fallbacks, then at most 2 enabled non-premium same-provider models other
than the preferred one in ascending input-price order, then at most 2
enabled other-provider models with at least half the preferred context
window in ascending input-price order, deduplicated keeping each id's
first occurrence. -/
theorem C9_candidate_list :
    ∀ (opts : AIClientOptions) (configs : List (String × ModelConfig))
      (p : String) (pcfg : ModelConfig),
      opts.enableFallback = true →
      configsGet configs p = some pcfg →
      (∀ q c, (q, c) ∈ configs → c.id = q) →
      ∃ sp cp : List ModelConfig,
        getModelsToTry opts configs p =
          dedupFirst ([p] ++ opts.fallbackModels ++
            sp.map (fun c => c.id) ++ cp.map (fun c => c.id)) ∧
        sp.length ≤ 2 ∧ cp.length ≤ 2 ∧
        sp.Pairwise priceLE ∧ cp.Pairwise priceLE ∧
        (∀ c ∈ sp, (c.id, c) ∈ configs ∧ c.provider = pcfg.provider ∧ c.id ≠ p ∧
          c.enabled = true ∧ c.pricing.tier ≠ "premium") ∧
        (∀ c ∈ cp, (c.id, c) ∈ configs ∧ c.provider ≠ pcfg.provider ∧
          c.enabled = true ∧
          pcfg.capabilities.contextWindow * (1 / 2) ≤ c.capabilities.contextWindow) := by
  intro opts configs p pcfg hef hget hwf
  have hpid : pcfg.id = p := hwf p pcfg (configsGet_mem configs p pcfg hget)
  refine ⟨(List.insertionSort priceLE ((configs.map Prod.snd).filter (fun c =>
      c.provider == pcfg.provider && c.id != pcfg.id &&
      c.enabled && c.pricing.tier != "premium"))).take 2,
    (List.insertionSort priceLE ((configs.map Prod.snd).filter (fun c =>
      c.provider != pcfg.provider && c.enabled &&
      decide (pcfg.capabilities.contextWindow * (1 / 2) ≤
        c.capabilities.contextWindow)))).take 2, ?_, ?_, ?_, ?_, ?_, ?_, ?_⟩
  · rw [getModelsToTry, if_pos hef, hget, jsSetDedup_eq_dedupFirst]
    unfold getAutomaticFallbacks
    simp only [List.map_take]
    simp [List.append_assoc]
  · exact List.length_take_le 2 _
  · exact List.length_take_le 2 _
  · exact ((List.sorted_insertionSort priceLE _).sublist (List.take_sublist 2 _))
  · exact ((List.sorted_insertionSort priceLE _).sublist (List.take_sublist 2 _))
  · intro c hc
    have hsort := List.take_subset 2 _ hc
    have hfil := ((List.perm_insertionSort priceLE _).mem_iff).mp hsort
    rcases List.mem_filter.mp hfil with ⟨hmem, hpred⟩
    simp only [Bool.and_eq_true, beq_iff_eq, bne_iff_ne] at hpred
    rcases List.mem_map.mp hmem with ⟨⟨q, c2⟩, hqc, hc2⟩
    simp only at hc2
    have hqc2 : (q, c) ∈ configs := hc2 ▸ hqc
    have hq : c.id = q := hwf q c hqc2
    refine ⟨by rw [hq]; exact hqc2, hpred.1.1.1, by rw [← hpid]; exact hpred.1.1.2,
      hpred.1.2, hpred.2⟩
  · intro c hc
    have hsort := List.take_subset 2 _ hc
    have hfil := ((List.perm_insertionSort priceLE _).mem_iff).mp hsort
    rcases List.mem_filter.mp hfil with ⟨hmem, hpred⟩
    simp only [Bool.and_eq_true, bne_iff_ne, decide_eq_true_eq] at hpred
    rcases List.mem_map.mp hmem with ⟨⟨q, c2⟩, hqc, hc2⟩
    simp only at hc2
    have hqc2 : (q, c) ∈ configs := hc2 ▸ hqc
    have hq : c.id = q := hwf q c hqc2
    exact ⟨by rw [hq]; exact hqc2, hpred.1.1, hpred.1.2, hpred.2⟩

/-- C9 witness: the candidate-list characterization instantiated on the
concrete model table of the dispatch scenarios. -/
theorem C9_witness :
    ∃ sp cp : List ModelConfig,
      getModelsToTry c1opts c1configs "model-p" =
        dedupFirst (["model-p"] ++ c1opts.fallbackModels ++
          sp.map (fun c => c.id) ++ cp.map (fun c => c.id)) ∧
      sp.length ≤ 2 ∧ cp.length ≤ 2 ∧
      sp.Pairwise priceLE ∧ cp.Pairwise priceLE ∧
      (∀ c ∈ sp, (c.id, c) ∈ c1configs ∧
        c.provider = (exCfg "model-p" "prov-a" 100).provider ∧ c.id ≠ "model-p" ∧
        c.enabled = true ∧ c.pricing.tier ≠ "premium") ∧
      (∀ c ∈ cp, (c.id, c) ∈ c1configs ∧
        c.provider ≠ (exCfg "model-p" "prov-a" 100).provider ∧ c.enabled = true ∧
        (exCfg "model-p" "prov-a" 100).capabilities.contextWindow * (1 / 2) ≤
          c.capabilities.contextWindow) :=
  C9_candidate_list c1opts c1configs "model-p" (exCfg "model-p" "prov-a" 100)
    rfl rfl (by
      intro q c hqc
      simp only [c1configs, List.mem_cons, List.not_mem_nil, or_false] at hqc
      rcases hqc with h | h | h <;>
        (injection h with h1 h2; subst h1; subst h2; rfl))

end CS
